import Mathlib

/-!
Verification development for the pool-coordinator core of OpenMesh-AI.

The Python services under `app/services` and `app/api` are shallowly embedded here:

* `decimal.Decimal` values are modelled as exact rationals (`ℚ`).  Every `Decimal`
  operation used by the coordinator (`+`, `-`, `*`, comparisons, `max`/`min`,
  `quantize(Decimal("0.00000001"))`, `quantize(Decimal("1"), ROUND_CEILING)`) is exact
  at 28 significant digits for all quantities appearing below, except plain division
  `a / b`, which Python rounds to 28 significant digits; where a division occurs
  (the emission scale factor) a comment argues the modelled exact quotient and the
  28-digit quotient agree after the subsequent 8-decimal quantization at every input
  used in a theorem.
* Python `float` specs/payload values are modelled by the exact rational they denote.
  The coordinator converts them via `Decimal(str(value))`; on every value produced by
  the coordinator itself (multiples of 0.01 in [0, 1], and small decimal literals)
  this round-trip is the identity, so the rational model is faithful.
* JSON maps (`specs_json`, `payload`, `output`) are modelled by `JVal` below.
  JSON booleans are not modelled: no claim exercises Python's bool-is-an-int corner.
* Database rows are lists of records; each SQLAlchemy query used by the services is
  translated at its use site (a comment marks the query).
-/

/-! ## Decimal arithmetic (`decimal.Decimal` with default context) -/

/-- Round a rational to the nearest integer, ties to the even integer.  This is
`ROUND_HALF_EVEN`, the default rounding of Python's `decimal` module, as used by
`Decimal.quantize` without an explicit rounding argument. -/
def roundHalfEven (x : ℚ) : ℤ :=
  let f : ℤ := ⌊x⌋
  let frac : ℚ := x - f
  if frac < 1/2 then f
  else if 1/2 < frac then f + 1
  else if f % 2 = 0 then f else f + 1

/-- `x.quantize(Decimal("0.00000001"))`: round to 8 decimal places, ties to even. -/
def quantize8 (x : ℚ) : ℚ := (roundHalfEven (x * 100000000) : ℚ) / 100000000

/-- `x.quantize(Decimal("1"), rounding=ROUND_CEILING)`: round up to an integer. -/
def quantizeCeil (x : ℚ) : ℤ := ⌈x⌉

theorem roundHalfEven_intCast (n : ℤ) : roundHalfEven (n : ℚ) = n := by
  simp [roundHalfEven]

theorem quantize8_of_int (n : ℤ) : quantize8 ((n : ℚ) / 100000000) = (n : ℚ) / 100000000 := by
  unfold quantize8
  rw [div_mul_cancel₀]
  · rw [roundHalfEven_intCast]
  · norm_num

/-! ## Python `Decimal(str)` on finite decimal literals

`_worker_decimal_setting` (dispatcher) and the emission reputation read call
`Decimal(str(value))` on arbitrary JSON values; for strings this invokes the
`Decimal` string constructor.  We model its core grammar
`[sign] digits [. digits] [(e|E) [sign] digits]` (also `.digits`); inputs outside
this grammar yield `none`.  Not modelled: surrounding whitespace, underscores, and
the special values `NaN`/`Infinity` (a `NaN` reputation would crash the dispatcher
tick on comparison in the source; no claim exercises these). -/

/-- Numeric value of a list of decimal digit characters (`digitsToNat [] = 0`). -/
def digitsToNat (ds : List Char) : ℕ := ds.foldl (fun acc c => 10 * acc + (c.toNat - 48)) 0

/-- Parse an optional leading sign, returning the sign and the remaining characters. -/
def parseSign : List Char → ℤ × List Char
  | '+' :: cs => (1, cs)
  | '-' :: cs => (-1, cs)
  | cs => (1, cs)

/-- Split a leading run of decimal digits off a character list. -/
def takeDigits (cs : List Char) : List Char × List Char :=
  (cs.takeWhile Char.isDigit, cs.dropWhile Char.isDigit)

/-- Parse the exponent suffix `[sign] digits` of a decimal literal. -/
def parseExpSuffix (sign : ℤ) (m : ℚ) (cs : List Char) : Option ℚ :=
  let (es, cs2) := parseSign cs
  let (ed, r) := takeDigits cs2
  if ed.isEmpty || !r.isEmpty then none
  else some ((sign : ℚ) * m * (10 : ℚ) ^ (es * (digitsToNat ed : ℤ)))

/-- Model of `Decimal(s)` for a string `s`: the exact rational value of a finite
decimal literal, or `none` if `s` is not one (Python raises `InvalidOperation`,
a subclass of `ArithmeticError`, in that case). -/
def pyDecimalOfString (s : String) : Option ℚ :=
  let (sign, cs) := parseSign s.toList
  let (ip, r1) := takeDigits cs
  let (fp, r2) :=
    match r1 with
    | '.' :: rest => takeDigits rest
    | _ => ([], r1)
  if ip.isEmpty && fp.isEmpty then none
  else
    let mantissa : ℚ := (digitsToNat ip : ℚ) + (digitsToNat fp : ℚ) / (10 : ℚ) ^ fp.length
    match r2 with
    | [] => some ((sign : ℚ) * mantissa)
    | 'e' :: rest => parseExpSuffix sign mantissa rest
    | 'E' :: rest => parseExpSuffix sign mantissa rest
    | _ => none

/-! ## JSON values -/

/-- A JSON value as stored in the coordinator's JSON columns (`payload`, `specs_json`,
`output`, ...).  `jint` models a Python `int`, `jnum` a Python `float` (by the exact
rational it denotes): the services distinguish them with `isinstance` checks. -/
inductive JVal : Type where
  | jnull : JVal
  | jint (n : ℤ) : JVal
  | jnum (q : ℚ) : JVal
  | jstr (s : String) : JVal
  | jlist (xs : List JVal) : JVal
  | jobj (fields : List (String × JVal)) : JVal
deriving Inhabited

/-- Python dict `.get`: the value at the first matching key of an association list. -/
def jgetField (fields : List (String × JVal)) (key : String) : Option JVal :=
  (fields.find? (fun kv => kv.1 = key)).map (·.2)

/-- Python dict item assignment `d[key] = v`: replace the value at an existing key,
or append the binding when the key is absent. -/
def jsetField (fields : List (String × JVal)) (key : String) (v : JVal) : List (String × JVal) :=
  if (fields.find? (fun kv => kv.1 = key)).isSome then
    fields.map (fun kv => if kv.1 = key then (key, v) else kv)
  else fields ++ [(key, v)]

/-! ### `json.dumps(obj, ensure_ascii=False, separators=(",", ":"))`

Used by `estimate_payload_units` (insertion key order) and, with `sort_keys=True`,
by `canonical_json`.  String escaping follows the `json` module with
`ensure_ascii=False`: only `"`, `\`, and control characters below 0x20 are escaped;
non-ASCII code points are emitted as-is. -/

/-- Lowercase hexadecimal digit. -/
def hexDigit (n : ℕ) : Char := if n < 10 then Char.ofNat (48 + n) else Char.ofNat (87 + n)

/-- Four-digit lowercase hexadecimal rendering, as in a JSON `\uXXXX` escape. -/
def hex4 (n : ℕ) : String :=
  String.mk [hexDigit (n / 4096 % 16), hexDigit (n / 256 % 16), hexDigit (n / 16 % 16),
    hexDigit (n % 16)]

/-- JSON escaping of one character under `ensure_ascii=False`. -/
def escapeJsonChar (c : Char) : String :=
  if c = '"' then "\\\""
  else if c = '\\' then "\\\\"
  else if c = '\n' then "\\n"
  else if c = '\t' then "\\t"
  else if c = '\r' then "\\r"
  else if c.toNat = 8 then "\\b"
  else if c.toNat = 12 then "\\f"
  else if c.toNat < 32 then "\\u" ++ hex4 c.toNat
  else String.singleton c

/-- A JSON string literal: quotes around the escaped characters. -/
def dumpJString (s : String) : String :=
  "\"" ++ String.join (s.toList.map escapeJsonChar) ++ "\""

/-- Stand-in for Python's `repr` of a `float` leaf (the shortest decimal string that
round-trips).  The exact spelling is not modelled; no theorem below depends on the
serialized form of a `jnum` leaf (the C9 statements evaluate float-free payloads). -/
def floatLeafDump (q : ℚ) : String := toString q

mutual
/-- `json.dumps(v, ensure_ascii=False, separators=(",", ":"))` with dict insertion
key order, as called by `estimate_payload_units`. -/
def jsonDump : JVal → String
  | .jnull => "null"
  | .jint n => toString n
  | .jnum q => floatLeafDump q
  | .jstr s => dumpJString s
  | .jlist xs => "[" ++ jsonDumpList xs ++ "]"
  | .jobj fs => "\x7b" ++ jsonDumpObj fs ++ "\x7d"

/-- Comma-separated serialization of JSON array elements. -/
def jsonDumpList : List JVal → String
  | [] => ""
  | [x] => jsonDump x
  | x :: y :: xs => jsonDump x ++ "," ++ jsonDumpList (y :: xs)

/-- Comma-separated serialization of JSON object entries (`"key":value`). -/
def jsonDumpObj : List (String × JVal) → String
  | [] => ""
  | [kv] => dumpJString kv.1 ++ ":" ++ jsonDump kv.2
  | kv :: kv2 :: fs => dumpJString kv.1 ++ ":" ++ jsonDump kv.2 ++ "," ++ jsonDumpObj (kv2 :: fs)
end

/-- Insert a field into a key-sorted field list (stable, by code-point order, the
order `sorted` and `json.dumps(sort_keys=True)` use on `str` keys). -/
def insertSortedField (kv : String × JVal) : List (String × JVal) → List (String × JVal)
  | [] => [kv]
  | kv2 :: rest =>
    if kv2.1 < kv.1 then kv2 :: insertSortedField kv rest else kv :: kv2 :: rest

/-- Insertion sort of object fields by key. -/
def sortFields : List (String × JVal) → List (String × JVal)
  | [] => []
  | kv :: rest => insertSortedField kv (sortFields rest)

mutual
/-- Recursively sort every object's fields by key, as `sort_keys=True` does. -/
def sortJVal : JVal → JVal
  | .jnull => .jnull
  | .jint n => .jint n
  | .jnum q => .jnum q
  | .jstr s => .jstr s
  | .jlist xs => .jlist (sortJValList xs)
  | .jobj fs => .jobj (sortFields (sortJValFields fs))

/-- `sortJVal` mapped over array elements. -/
def sortJValList : List JVal → List JVal
  | [] => []
  | x :: xs => sortJVal x :: sortJValList xs

/-- `sortJVal` mapped over field values. -/
def sortJValFields : List (String × JVal) → List (String × JVal)
  | [] => []
  | kv :: fs => (kv.1, sortJVal kv.2) :: sortJValFields fs
end

/-- `canonical_json(obj)` from `app/core/protocol_crypto.py`: the UTF-8 bytes of the
compact, key-sorted serialization.  We keep the string; its byte length is
`String.utf8ByteSize`. -/
def canonical_json (v : JVal) : String := jsonDump (sortJVal v)

/-! ## Enumerations (`app/db/models/enums.py`) -/

/-- `WorkerStatus`. -/
inductive WorkerStatus : Type where
  | online | offline | draining | maintenance | banned
deriving DecidableEq, Repr

/-- `JobStatus`. -/
inductive JobStatus : Type where
  | queued | running | completed | failed | canceled
deriving DecidableEq, Repr

/-- `AssignmentStatus`. -/
inductive AssignmentStatus : Type where
  | assigned | started | completed | failed | canceled
deriving DecidableEq, Repr

/-- `VerificationStatus`. -/
inductive VerificationStatus : Type where
  | pending | verified | disputed | rejected
deriving DecidableEq, Repr

/-- `OwnerType`. -/
inductive OwnerType : Type where
  | user | worker | system
deriving DecidableEq, Repr

/-- `JobType`. -/
inductive JobType : Type where
  | inference | fine_tuning | embedding
deriving DecidableEq, Repr

/-! ## Rows (`app/db/models`)

Timestamps are modelled as rationals (seconds since the epoch, UTC).  Only the
columns the verified services read or write are carried. -/

/-- A `workers` row. -/
structure Worker where
  id : ℕ
  ownerUserId : ℕ
  status : WorkerStatus
  specsJson : Option (List (String × JVal))
  publicKey : Option String
  lastSeenAt : Option ℚ

/-- A `worker_settings` row (1-to-1 with `workers`). -/
structure WorkerSettings where
  workerId : ℕ
  maxConcurrency : ℤ
  heartbeatTimeoutSeconds : ℤ
  acceptNewAssignments : Bool

/-- A `worker_heartbeats` row. -/
structure WorkerHeartbeat where
  workerId : ℕ
  recordedAt : ℚ

/-- A `jobs` row.  `canonicalExpectedHash` is the column added by migration 0007
and read by the verifier. -/
structure Job where
  id : ℕ
  createdByUserId : Option ℕ
  jobType : JobType
  status : JobStatus
  payload : JVal
  priority : ℤ
  canonicalExpectedHash : Option String

/-- An `assignments` row. -/
structure Assignment where
  id : ℕ
  jobId : ℕ
  workerId : Option ℕ
  status : AssignmentStatus
  assignedAt : ℚ
  finishedAt : Option ℚ
  nonce : String

/-- A `results` row (keyed by its unique `assignment_id`).  The verification columns
come from migration 0007; the verification score of the cross-verification path is a
cosine similarity, modelled as an exact real number. -/
structure Result where
  assignmentId : ℕ
  output : Option JVal
  errorMessage : Option String
  artifactUri : Option String
  outputHash : Option String
  signature : Option String
  verificationStatus : VerificationStatus
  verificationScore : Option ℝ

/-- An `accounts` row. -/
structure Account where
  id : ℕ
  ownerType : OwnerType
  ownerId : ℕ
  currency : String
  balance : ℚ

/-- A `ledger_entries` row.  The free-form `details` map is not modelled: no claim
inspects it.  `createdAt` is the `TimestampMixin` row-creation time. -/
structure LedgerEntry where
  accountId : ℕ
  jobId : Option ℕ
  assignmentId : Option ℕ
  amount : ℚ
  entryType : String
  createdAt : ℚ

/-- The `pool_settings` singleton (id 1); only the verifier/accounting fields. -/
structure PoolSettings where
  auditIntervalJobs : ℤ
  auditJobRateBps : ℤ
  fraudBanThreshold : ℤ
  embedSimilarityThreshold : ℚ
  poolFeeBps : ℤ

/-- A `pricing_rules` row (the accounting fields). -/
structure PricingRule where
  id : ℕ
  jobType : JobType
  unitCostTokens : ℚ
  isActive : Bool
  effectiveFrom : ℚ

/-- The relational state the verified services read and write.  `nextAssignmentId`
and `nextAccountId` model the autoincrementing primary keys. -/
structure Db where
  workers : List Worker
  workerSettingsRows : List WorkerSettings
  heartbeats : List WorkerHeartbeat
  jobs : List Job
  assignments : List Assignment
  results : List Result
  accounts : List Account
  ledger : List LedgerEntry
  poolSettings : Option PoolSettings
  pricingRules : List PricingRule
  nextAssignmentId : ℕ
  nextAccountId : ℕ

/-- Row lookup by primary key (`db.get` / `SELECT ... WHERE id = ...`). -/
def Db.getWorker (db : Db) (wid : ℕ) : Option Worker :=
  db.workers.find? (fun w => decide (w.id = wid))

/-- The `Worker.settings` relationship (unique `worker_id`). -/
def Db.workerSettingsFor (db : Db) (wid : ℕ) : Option WorkerSettings :=
  db.workerSettingsRows.find? (fun s => decide (s.workerId = wid))

/-- Row lookup by primary key. -/
def Db.getJob (db : Db) (jid : ℕ) : Option Job :=
  db.jobs.find? (fun j => decide (j.id = jid))

/-- Row lookup by primary key. -/
def Db.getAssignment (db : Db) (aid : ℕ) : Option Assignment :=
  db.assignments.find? (fun a => decide (a.id = aid))

/-- The `Assignment.result` relationship (unique `assignment_id`). -/
def Db.resultFor (db : Db) (aid : ℕ) : Option Result :=
  db.results.find? (fun r => decide (r.assignmentId = aid))

/-- In-place ORM mutation of a worker row. -/
def Db.updateWorker (db : Db) (wid : ℕ) (f : Worker → Worker) : Db :=
  { db with workers := db.workers.map (fun w => if w.id = wid then f w else w) }

/-- In-place ORM mutation of an assignment row. -/
def Db.updateAssignment (db : Db) (aid : ℕ) (f : Assignment → Assignment) : Db :=
  { db with assignments := db.assignments.map (fun a => if a.id = aid then f a else a) }

/-- In-place ORM mutation of a result row. -/
def Db.updateResult (db : Db) (aid : ℕ) (f : Result → Result) : Db :=
  { db with results := db.results.map (fun r => if r.assignmentId = aid then f r else r) }

/-- In-place ORM mutation of a job row. -/
def Db.updateJob (db : Db) (jid : ℕ) (f : Job → Job) : Db :=
  { db with jobs := db.jobs.map (fun j => if j.id = jid then f j else j) }

/-- In-place ORM mutation of an account row. -/
def Db.updateAccount (db : Db) (acctId : ℕ) (f : Account → Account) : Db :=
  { db with accounts := db.accounts.map (fun a => if a.id = acctId then f a else a) }

/-- Referential well-formedness: primary keys are unique and below the
autoincrement counters, and ledger rows reference allocated account ids.  Every
state reachable from an empty store through the embedded operations satisfies it. -/
structure DbWF (db : Db) : Prop where
  accountIdsNodup : (db.accounts.map (·.id)).Nodup
  accountIdsLt : ∀ a ∈ db.accounts, a.id < db.nextAccountId
  ledgerAccountIdsLt : ∀ e ∈ db.ledger, e.accountId < db.nextAccountId
  assignmentIdsNodup : (db.assignments.map (·.id)).Nodup
  assignmentIdsLt : ∀ a ∈ db.assignments, a.id < db.nextAssignmentId

/-! ## Finance (`app/services/finance.py`) -/

/-- `POOL_ACCOUNT_OWNER_ID`. -/
def POOL_ACCOUNT_OWNER_ID : ℕ := 1

/-- `TOKEN_CURRENCY`. -/
def TOKEN_CURRENCY : String := "TOK"

/-- `_get_or_create_account`: return the id of the `(owner_type, owner_id, currency)`
account, inserting it with balance 0 (and the next autoincrement id) when absent. -/
def get_or_create_account (db : Db) (ownerType : OwnerType) (ownerId : ℕ)
    (currency : String) : ℕ × Db :=
  match db.accounts.find? (fun a =>
      decide (a.ownerType = ownerType ∧ a.ownerId = ownerId ∧ a.currency = currency)) with
  | some a => (a.id, db)
  | none =>
    (db.nextAccountId,
      { db with
        accounts := db.accounts ++ [⟨db.nextAccountId, ownerType, ownerId, currency, 0⟩],
        nextAccountId := db.nextAccountId + 1 })

/-- `estimate_payload_units`: `max(1, ceil(len(json.dumps(payload, ensure_ascii=False,
separators=(",", ":"))) / 1000))` — note the length is in characters of the string,
and the keys are in dict insertion order (`sort_keys` is not passed here). -/
def estimate_payload_units (payload : JVal) : ℕ :=
  let payloadChars : ℕ := (jsonDump payload).length
  let rawUnits : ℤ := quantizeCeil ((payloadChars : ℚ) / 1000)
  max 1 rawUnits.toNat

/-- Strict order for `ORDER BY effective_from DESC, id DESC`. -/
def pricingRuleBefore (r1 r2 : PricingRule) : Bool :=
  decide (r2.effectiveFrom < r1.effectiveFrom ∨
    (r1.effectiveFrom = r2.effectiveFrom ∧ r2.id < r1.id))

/-- Leftmost minimum of `x :: xs` under a strict order `lt`. -/
def firstMinBy {α : Type} (lt : α → α → Bool) (x : α) (xs : List α) : α :=
  xs.foldl (fun best y => if lt y best then y else best) x

/-- First row of a query result ordered by `lt` (`db.scalar` on an ordered select):
the leftmost minimal element. -/
def firstRowBy {α : Type} (lt : α → α → Bool) : List α → Option α
  | [] => none
  | x :: xs => some (firstMinBy lt x xs)

/-- `_active_pricing_rule`: the most recent active rule for the job type
(`ORDER BY effective_from DESC, id DESC`). -/
def active_pricing_rule (db : Db) (jt : JobType) : Option PricingRule :=
  firstRowBy pricingRuleBefore
    (db.pricingRules.filter (fun r => decide (r.jobType = jt ∧ r.isActive = true)))

/-- `_create_ledger_entry`: add `amount` to the account's balance and insert the
ledger row in the same transaction. -/
def create_ledger_entry (db : Db) (accountId : ℕ) (amount : ℚ) (reason : String)
    (a : Assignment) (now : ℚ) : Db :=
  let db1 := db.updateAccount accountId (fun acct => { acct with balance := acct.balance + amount })
  { db1 with ledger := db1.ledger ++ [⟨accountId, some a.jobId, some a.id, amount, reason, now⟩] }

/-- `apply_job_verification_accounting`.  The source receives the (already updated)
`assignment` and `result` ORM objects; here they are re-read from the state by the
assignment id, which is equivalent inside the submission transaction. -/
def apply_job_verification_accounting (db : Db) (aid : ℕ) (now : ℚ) : Db :=
  match db.getAssignment aid, db.resultFor aid with
  | some a, some r =>
    if r.verificationStatus ≠ .verified then db
    else match a.workerId.bind db.getWorker, db.getJob a.jobId with
    | some w, some job =>
      match job.createdByUserId with
      | none => db
      | some clientUserId =>
        if a.status = .failed ∨ a.status = .canceled then db
        else if job.status = .failed ∨ job.status = .canceled then db
        else if (db.ledger.find? (fun e =>
            decide (e.assignmentId = some aid ∧ e.entryType = "job_charge"))).isSome then db
        else match active_pricing_rule db job.jobType with
        | none => db
        | some rule =>
          -- `pool_settings = db.get(PoolSettings, 1)`; fee defaults to 0 bps if absent
          let poolFeeBps : ℤ := match db.poolSettings with
            | some ps => ps.poolFeeBps
            | none => 0
          let units : ℕ := estimate_payload_units job.payload
          -- unit_cost_tokens is a non-nullable column; the `if ... is not None` guard
          -- in the source is the identity here
          let cost : ℚ := quantize8 ((units : ℚ) * rule.unitCostTokens)
          let poolFee : ℚ := quantize8 (cost * (poolFeeBps : ℚ) / 10000)
          let workerReward : ℚ := cost - poolFee
          let step1 := get_or_create_account db .user clientUserId TOKEN_CURRENCY
          let step2 := get_or_create_account step1.2 .system POOL_ACCOUNT_OWNER_ID TOKEN_CURRENCY
          let step3 := get_or_create_account step2.2 .user w.ownerUserId TOKEN_CURRENCY
          let db4 := create_ledger_entry step3.2 step1.1 (-cost) "job_charge" a now
          let db5 := create_ledger_entry db4 step2.1 poolFee "pool_fee" a now
          create_ledger_entry db5 step3.1 workerReward "worker_reward" a now
    | _, _ => db
  | _, _ => db

/-- Balance of the account row with the given id (0 when the row does not exist). -/
def acctBalance (db : Db) (acctId : ℕ) : ℚ :=
  match db.accounts.find? (fun a => decide (a.id = acctId)) with
  | some a => a.balance
  | none => 0

/-- Sum of the amounts of the listed ledger entries that hit the given account. -/
def ledgerSumFor (entries : List LedgerEntry) (acctId : ℕ) : ℚ :=
  ((entries.filter (fun e => decide (e.accountId = acctId))).map (·.amount)).sum

/-! ## Dispatcher (`app/services/job_dispatcher.py`) -/

/-- `DEFAULT_PRICE_MULTIPLIER`. -/
def DEFAULT_PRICE_MULTIPLIER : ℚ := 1

/-- `DEFAULT_REPUTATION`. -/
def DEFAULT_REPUTATION : ℚ := 1/2

/-- `DEFAULT_ESTIMATED_LATENCY_MS`. -/
def DEFAULT_ESTIMATED_LATENCY_MS : ℤ := 1000000

/-- `_worker_decimal_setting`: read a numeric setting from the specs map via
`Decimal(str(value))`; non-dict specs, missing keys, non-numeric values, and
unparsable strings (`InvalidOperation ⊂ ArithmeticError` is caught) fall back to
the default. -/
def worker_decimal_setting (w : Worker) (key : String) (default : ℚ) : ℚ :=
  let specs := w.specsJson.getD []
  match jgetField specs key with
  | some (.jint n) => (n : ℚ)
  | some (.jnum q) => q
  | some (.jstr s) => (pyDecimalOfString s).getD default
  | _ => default

/-- `_worker_latency_ms`: only a non-negative Python `int` is accepted. -/
def worker_latency_ms (w : Worker) : ℤ :=
  let specs := w.specsJson.getD []
  match jgetField specs "estimated_latency_ms" with
  | some (.jint n) => if 0 ≤ n then n else DEFAULT_ESTIMATED_LATENCY_MS
  | _ => DEFAULT_ESTIMATED_LATENCY_MS

/-- `_job_price_multiplier`: the `price_multiplier` payload key via `Decimal(str(...))`,
default 1.0. -/
def job_price_multiplier (j : Job) : ℚ :=
  match j.payload with
  | .jobj fields =>
    match jgetField fields "price_multiplier" with
    | some (.jint n) => (n : ℚ)
    | some (.jnum q) => q
    | some (.jstr s) => (pyDecimalOfString s).getD DEFAULT_PRICE_MULTIPLIER
    | _ => DEFAULT_PRICE_MULTIPLIER
  | _ => DEFAULT_PRICE_MULTIPLIER

/-- The dispatcher's `active_counts` dict as a total function: the number of
assignments of the worker in states `assigned`/`started` (grouped count query). -/
def activeCount (assignments : List Assignment) (wid : ℕ) : ℕ :=
  (assignments.filter (fun a =>
    decide ((a.status = .assigned ∨ a.status = .started) ∧ a.workerId = some wid))).length

/-- A candidate tuple `(reputation, latency_ms, current_parallel_jobs, worker)` from
the dispatcher's candidate loop. -/
structure Candidate where
  reputation : ℚ
  latencyMs : ℤ
  load : ℕ
  worker : Worker

/-- One iteration of the candidate loop in `assign_queued_jobs`: `none` when a
`continue` fires (no settings row, not accepting, at capacity, or priced above the
job), otherwise the candidate tuple. -/
def mkCandidate (db : Db) (counts : ℕ → ℕ) (jobPrice : ℚ) (w : Worker) : Option Candidate :=
  match db.workerSettingsFor w.id with
  | none => none
  | some s =>
    if !s.acceptNewAssignments then none
    else
      let currentParallel := counts w.id
      if s.maxConcurrency ≤ (currentParallel : ℤ) then none
      else if jobPrice < worker_decimal_setting w "price_multiplier" DEFAULT_PRICE_MULTIPLIER then
        none
      else some ⟨worker_decimal_setting w "reputation" DEFAULT_REPUTATION,
        worker_latency_ms w, currentParallel, w⟩

/-- Strict comparison of the sort keys
`(-reputation, estimated_latency_ms, active_load, worker_id)`. -/
def candLt (c1 c2 : Candidate) : Bool :=
  decide (-c1.reputation < -c2.reputation ∨ (-c1.reputation = -c2.reputation ∧
    (c1.latencyMs < c2.latencyMs ∨ (c1.latencyMs = c2.latencyMs ∧
      (c1.load < c2.load ∨ (c1.load = c2.load ∧ c1.worker.id < c2.worker.id))))))

/-- Strict order for `ORDER BY priority DESC, id ASC` on queued jobs. -/
def jobOrderLt (j1 j2 : Job) : Bool :=
  decide (j2.priority < j1.priority ∨ (j1.priority = j2.priority ∧ j1.id < j2.id))

/-- Stable insertion into a list sorted by the strict order `lt`. -/
def insertByLt {α : Type} (lt : α → α → Bool) (x : α) : List α → List α
  | [] => [x]
  | y :: ys => if lt y x then y :: insertByLt lt x ys else x :: y :: ys

/-- Stable insertion sort by the strict order `lt` (the claimed-job ordering). -/
def sortByLt {α : Type} (lt : α → α → Bool) : List α → List α
  | [] => []
  | x :: xs => insertByLt lt x (sortByLt lt xs)

/-- The body of the per-job loop of `assign_queued_jobs`: build the candidate list
over the online workers, pick `candidates.sort(key)[0]` (the leftmost minimum),
insert the assignment, mark the job `running`, and bump the in-memory active count
so later jobs of the same tick see it.  `uuidHex n` stands for the `uuid4().hex` of
the (n+1)-th assignment created in this tick. -/
def dispatchJobStep (onlineWorkers : List Worker) (uuidHex : ℕ → String) (now : ℚ)
    (acc : Db × (ℕ → ℕ) × ℕ) (job : Job) : Db × (ℕ → ℕ) × ℕ :=
  let db := acc.1
  let counts := acc.2.1
  let n := acc.2.2
  let jobPrice := job_price_multiplier job
  let candidates := onlineWorkers.filterMap (mkCandidate db counts jobPrice)
  match firstRowBy candLt candidates with
  | none => (db, counts, n)
  | some c =>
    let w := c.worker
    let newA : Assignment :=
      ⟨db.nextAssignmentId, job.id, some w.id, .assigned, now, none,
        "job-" ++ toString job.id ++ "-" ++ uuidHex n⟩
    let db1 := { db with
      assignments := db.assignments ++ [newA],
      nextAssignmentId := db.nextAssignmentId + 1 }
    let db2 := db1.updateJob job.id (fun j => { j with status := .running })
    (db2, fun wid => if wid = w.id then counts wid + 1 else counts wid, n + 1)

/-- `assign_queued_jobs`: claim up to `limit` queued jobs in
`(priority DESC, id ASC)` order, load the online workers and the active counts, then
run the greedy per-job loop.  Returns the updated state with the number of
assignments created. -/
def assign_queued_jobs (db : Db) (limit : ℕ) (uuidHex : ℕ → String) (now : ℚ) : Db × ℕ :=
  let queuedJobs :=
    (sortByLt jobOrderLt (db.jobs.filter (fun j => decide (j.status = .queued)))).take limit
  if queuedJobs.isEmpty then (db, 0)
  else
    let workers := db.workers.filter (fun w => decide (w.status = .online))
    if workers.isEmpty then (db, 0)
    else
      let counts := activeCount db.assignments
      let out := queuedJobs.foldl (dispatchJobStep workers uuidHex now) (db, counts, 0)
      (out.1, out.2.2)

/-! ## Verification (`app/services/verification.py`) -/

/-- `VERIFIED_REPUTATION_DELTA = Decimal("0.01")`. -/
def VERIFIED_REPUTATION_DELTA : ℚ := 1/100

/-- `REJECTED_REPUTATION_DELTA = Decimal("-0.05")`. -/
def REJECTED_REPUTATION_DELTA : ℚ := -5/100

/-- The `AuditPolicy` dataclass. -/
structure AuditPolicy where
  auditIntervalJobs : ℤ
  auditJobRateBps : ℤ
  embedSimilarityThreshold : ℚ
  fraudBanThreshold : ℤ

/-- `load_audit_policy`: pool settings row 1, with the hard-coded fallback. -/
def load_audit_policy (db : Db) : AuditPolicy :=
  match db.poolSettings with
  | none => ⟨0, 0, 985/1000, 2⟩
  | some s => ⟨s.auditIntervalJobs, s.auditJobRateBps, s.embedSimilarityThreshold,
      s.fraudBanThreshold⟩

/-- `_safe_float`: Python ints and floats convert, everything else is `None`. -/
def safeFloat : JVal → Option ℚ
  | .jint n => some (n : ℚ)
  | .jnum q => some q
  | _ => none

open Classical in
/-- `cosine_similarity`.  The source computes with IEEE floats; the model computes
exactly (rational sums, `** 0.5` as the real square root, exact division). -/
noncomputable def cosine_similarity (e1 e2 : JVal) : Option ℝ :=
  match e1, e2 with
  | .jlist xs, .jlist ys =>
    if xs.isEmpty || xs.length != ys.length then none
    else match xs.mapM safeFloat, ys.mapM safeFloat with
      | some v1, some v2 =>
        let dot : ℚ := (List.zipWith (· * ·) v1 v2).sum
        let norm1 : ℝ := Real.sqrt (((v1.map (fun a => a * a)).sum : ℚ) : ℝ)
        let norm2 : ℝ := Real.sqrt (((v2.map (fun a => a * a)).sum : ℚ) : ℝ)
        if norm1 = 0 ∨ norm2 = 0 then none
        else some ((dot : ℚ) / (norm1 * norm2))
      | _, _ => none
  | _, _ => none

/-- `_extract_embedding`: prefer a list stored under the `embedding` key of a dict
output; a missing output (`None`) is passed through and fails the list check. -/
def extract_embedding : Option JVal → JVal
  | some (.jobj fields) =>
    match jgetField fields "embedding" with
    | some (.jlist xs) => .jlist xs
    | _ => .jobj fields
  | some v => v
  | none => .jnull

/-- The stored reputation as `_adjust_worker_reputation` reads it: the numeric
`reputation` key of the worker's specs, with non-numeric or missing values falling
back to 0.5. -/
def workerReputation (w : Worker) : ℚ :=
  match jgetField (w.specsJson.getD []) "reputation" with
  | some (.jint n) => (n : ℚ)
  | some (.jnum q) => q
  | _ => 1/2

/-- The incremented rejection counter as `_adjust_worker_reputation` computes it
from a specs dict: stored value + 1, restarting at 1 when absent or non-integer. -/
def workerRejectedNextFrom (specs : List (String × JVal)) : ℤ :=
  match jgetField specs "rejected_submissions" with
  | some (.jint n) => n + 1
  | _ => 1

/-- The incremented rejection counter read from the worker's own specs. -/
def workerRejectedNext (w : Worker) : ℤ := workerRejectedNextFrom (w.specsJson.getD [])

/-- `_adjust_worker_reputation`: clamp the reputation into [0, 1] after adding the
delta, and on a rejection bump `rejected_submissions` and ban the worker once the
counter reaches the fraud threshold.  Non-numeric stored reputations fall back to
0.5; a non-int stored counter restarts at 1 (the counter is read from the dict
after the reputation write, which touches only the distinct `reputation` key). -/
def adjust_worker_reputation (w : Worker) (delta : ℚ) (rejected : Bool)
    (fraudBanThreshold : ℤ) : Worker :=
  let specs0 := w.specsJson.getD []
  let updated := min 1 (max 0 (workerReputation w + delta))
  let specs1 := jsetField specs0 "reputation" (.jnum updated)
  if !rejected then { w with specsJson := some specs1 }
  else
    let rejectedValue : ℤ := workerRejectedNextFrom specs1
    let specs2 := jsetField specs1 "rejected_submissions" (.jint rejectedValue)
    if fraudBanThreshold ≤ rejectedValue then
      { w with specsJson := some specs2, status := .banned }
    else { w with specsJson := some specs2 }

/-- `_ensure_third_assignment`: insert an unbound audit assignment (fresh nonce
`audit-third-{uuid4().hex}`, modelled by `auditHex`) unless the job already has
three assignments. -/
def ensure_third_assignment (db : Db) (a : Assignment) (auditHex : String) (now : ℚ) : Db :=
  let existingCount := (db.assignments.filter (fun x => decide (x.jobId = a.jobId))).length
  if 3 ≤ existingCount then db
  else { db with
    assignments := db.assignments ++
      [⟨db.nextAssignmentId, a.jobId, none, .assigned, now, none, "audit-third-" ++ auditHex⟩],
    nextAssignmentId := db.nextAssignmentId + 1 }

/-- `_process_canonical_job`: audit path against the job's known-good hash. -/
def process_canonical_job (db : Db) (policy : AuditPolicy) (a : Assignment) (r : Result) :
    Db × VerificationStatus :=
  match (db.getJob a.jobId).bind (·.canonicalExpectedHash) with
  | none => (db, .pending)
  | some expected =>
    if r.outputHash = some expected then
      let db1 := db.updateResult r.assignmentId (fun res =>
        { res with verificationStatus := .verified, verificationScore := some 1 })
      let db2 := match a.workerId with
        | some wid => db1.updateWorker wid (fun w =>
            adjust_worker_reputation w VERIFIED_REPUTATION_DELTA false policy.fraudBanThreshold)
        | none => db1
      (db2, .verified)
    else
      let db1 := db.updateResult r.assignmentId (fun res =>
        { res with verificationStatus := .rejected, verificationScore := some 0 })
      let db2 := db1.updateAssignment a.id (fun x => { x with status := .failed })
      let db3 := match a.workerId with
        | some wid => db2.updateWorker wid (fun w =>
            adjust_worker_reputation w REJECTED_REPUTATION_DELTA true policy.fraudBanThreshold)
        | none => db2
      (db3, .rejected)

/-- Strict order for `ORDER BY id ASC` on assignments. -/
def assignmentIdLt (a1 a2 : Assignment) : Bool := decide (a1.id < a2.id)

/-- The shared disputed tail of the cross-verification path: mark both results
`disputed` (scores untouched) and schedule the third opinion. -/
def cross_disputed (db : Db) (a : Assignment) (r : Result) (peerAid : ℕ)
    (auditHex : String) (now : ℚ) : Db × VerificationStatus :=
  let db1 := db.updateResult r.assignmentId (fun res =>
    { res with verificationStatus := .disputed })
  let db2 := db1.updateResult peerAid (fun res =>
    { res with verificationStatus := .disputed })
  (ensure_third_assignment db2 a auditHex now, .disputed)

open Classical in
/-- `process_submission_verification`: the canonical path when the job carries a
`canonical_expected_hash`, otherwise cross-verification against the first peer
assignment of the job that already has a result (`ORDER BY id ASC`). -/
noncomputable def process_submission_verification (db : Db) (a : Assignment) (r : Result)
    (auditHex : String) (now : ℚ) : Db × VerificationStatus :=
  let policy := load_audit_policy db
  if ((db.getJob a.jobId).bind (·.canonicalExpectedHash)).isSome then
    process_canonical_job db policy a r
  else
    let peers := db.assignments.filter (fun x =>
      decide (x.jobId = a.jobId ∧ x.id ≠ a.id) && (db.resultFor x.id).isSome)
    match firstRowBy assignmentIdLt peers with
    | none => (db, .pending)
    | some peer =>
      match db.resultFor peer.id with
      | none => (db, .pending)
      | some peerResult =>
        match cosine_similarity (extract_embedding peerResult.output)
            (extract_embedding r.output) with
        | some sim =>
          if (policy.embedSimilarityThreshold : ℝ) ≤ sim then
            let db1 := db.updateResult r.assignmentId (fun res =>
              { res with verificationStatus := .verified, verificationScore := some sim })
            let db2 := db1.updateResult peer.id (fun res =>
              { res with verificationStatus := .verified, verificationScore := some sim })
            let db3 := match a.workerId with
              | some wid => db2.updateWorker wid (fun w =>
                  adjust_worker_reputation w VERIFIED_REPUTATION_DELTA false
                    policy.fraudBanThreshold)
              | none => db2
            let db4 := match peer.workerId with
              | some wid => db3.updateWorker wid (fun w =>
                  adjust_worker_reputation w VERIFIED_REPUTATION_DELTA false
                    policy.fraudBanThreshold)
              | none => db3
            (db4, .verified)
          else cross_disputed db a r peer.id auditHex now
        | none => cross_disputed db a r peer.id auditHex now

/-! ## Worker-facing API (`app/api/jobs.py`)

Authentication and role checks (`require_roles(Role.WORKER_OWNER)`) are the
out-of-scope auth layer; `currentUserId` is the id of the authenticated
worker-owner.  `Except ℕ` models `HTTPException(status_code)`. -/

/-- `_get_owned_worker`: 404 (`none`) unless the worker exists and is owned. -/
def get_owned_worker (db : Db) (workerId ownerUserId : ℕ) : Option Worker :=
  db.workers.find? (fun w => decide (w.id = workerId ∧ w.ownerUserId = ownerUserId))

/-- The `WorkerHeartbeatResponse` schema. -/
structure WorkerHeartbeatResponse where
  workerId : ℕ
  lastSeenAt : ℚ

/-- `heartbeat_worker` (`POST /workers/heartbeat`): set `last_seen_at = now`, set the
status to `online` unconditionally, and append a heartbeat history row. -/
def heartbeat_worker (db : Db) (currentUserId workerId : ℕ) (now : ℚ) :
    Except ℕ WorkerHeartbeatResponse × Db :=
  match get_owned_worker db workerId currentUserId with
  | none => (.error 404, db)
  | some w =>
    let db1 := db.updateWorker w.id (fun x => { x with lastSeenAt := some now, status := .online })
    let db2 := { db1 with heartbeats := db1.heartbeats ++ [⟨w.id, now⟩] }
    (.ok ⟨w.id, now⟩, db2)

/-- The `JobPollResponse` schema. -/
structure JobPollResponse where
  assignmentId : ℕ
  job : JVal
  nonce : String
  costHintTokens : ℤ

/-- Strict order for `ORDER BY assigned_at ASC` on assignments. -/
def assignedAtLt (a1 a2 : Assignment) : Bool := decide (a1.assignedAt < a2.assignedAt)

/-- `poll_job` (`POST /jobs/poll`): the earliest `assigned` assignment of the owned
worker with its job payload and nonce; `cost_hint_tokens` is filled from the job's
integer `priority` column.  The handler runs only SELECTs: the state comes back
unchanged by construction. -/
def poll_job (db : Db) (currentUserId workerId : ℕ) : Except ℕ JobPollResponse × Db :=
  match get_owned_worker db workerId currentUserId with
  | none => (.error 404, db)
  | some w =>
    let rows := db.assignments.filter (fun a =>
      decide (a.workerId = some w.id ∧ a.status = .assigned))
    match firstRowBy assignedAtLt rows with
    | none => (.error 404, db)
    | some a =>
      match db.getJob a.jobId with
      | none => (.error 404, db)
      | some job => (.ok ⟨a.id, job.payload, a.nonce, job.priority⟩, db)

/-- The `JobSubmitRequest` schema after pydantic validation. -/
structure JobSubmitRequest where
  workerId : ℕ
  assignmentId : ℕ
  nonce : String
  signature : String
  output : Option JVal
  errorMessage : Option String
  artifactUri : Option String
  outputHash : Option String

/-- The signed pre-image `canonical_json({assignment_id, nonce, output_hash})`. -/
structure SignedSubmission where
  assignmentId : ℕ
  nonce : String
  outputHash : Option String
deriving DecidableEq

/-- The `JobSubmitResponse` schema. -/
structure JobSubmitResponse where
  assignmentId : ℕ
  status : AssignmentStatus
  finishedAt : ℚ

/-- `submit_job` (`POST /jobs/submit`).  `rateAllow` is the verdict of the in-process
sliding-window rate limiter; `verifySig pk sig msg` models `verify_ed25519_signature`
(a pure function of its inputs): `.error ()` for a `ProtocolCryptoError` (bad
encoding or length, HTTP 400), `.ok b` for a well-formed signature.  The
`OperationalError → 409` catch concerns concurrent writers and has no counterpart in
this single-state semantics. -/
noncomputable def submit_job (db : Db) (currentUserId : ℕ) (req : JobSubmitRequest)
    (rateAllow : Bool) (verifySig : String → String → SignedSubmission → Except Unit Bool)
    (auditHex : String) (now : ℚ) : Except ℕ JobSubmitResponse × Db :=
  match get_owned_worker db req.workerId currentUserId with
  | none => (.error 404, db)
  | some worker =>
    if !rateAllow then (.error 429, db)
    else match worker.publicKey with
    | none => (.error 400, db)
    | some pk =>
      if pk.isEmpty then (.error 400, db)
      else match verifySig pk req.signature ⟨req.assignmentId, req.nonce, req.outputHash⟩ with
      | .error _ => (.error 400, db)
      | .ok signatureValid =>
        if !signatureValid then (.error 400, db)
        else
          match db.assignments.find? (fun a =>
              decide (a.id = req.assignmentId ∧ a.workerId = some worker.id)) with
          | none => (.error 404, db)
          | some assignment =>
            if assignment.nonce ≠ req.nonce then (.error 400, db)
            else if (db.resultFor assignment.id).isSome then (.error 409, db)
            else if ¬(assignment.status = .assigned ∨ assignment.status = .started) then
              (.error 409, db)
            else
              let newStatus : AssignmentStatus :=
                if req.errorMessage = none then .completed else .failed
              let db1 := db.updateAssignment assignment.id (fun a =>
                { a with status := newStatus, finishedAt := some now })
              let newResult : Result :=
                ⟨assignment.id, req.output, req.errorMessage, req.artifactUri, req.outputHash,
                  some req.signature, .pending, none⟩
              let db2 := { db1 with results := db1.results ++ [newResult] }
              let a2 := { assignment with status := newStatus, finishedAt := some now }
              let db3 := (process_submission_verification db2 a2 newResult auditHex now).1
              let db4 := apply_job_verification_accounting db3 assignment.id now
              let finalStatus := match db4.getAssignment assignment.id with
                | some a => a.status
                | none => newStatus
              (.ok ⟨assignment.id, finalStatus, now⟩, db4)

/-! ## Emission (`app/services/emission.py`)

`settings.daily_emission_base_tokens` / `settings.daily_emission_cap_tokens` come
from the process configuration (`app/core/config.py`), modelled by `EmissionConfig`;
the source converts them with `Decimal(str(float))`, exact on the decimal literals
used here. -/

/-- The emission fields of `app.core.config.Settings`. -/
structure EmissionConfig where
  dailyEmissionBaseTokens : ℚ
  dailyEmissionCapTokens : ℚ

/-- `SECONDS_PER_DAY = Decimal("86400")`. -/
def SECONDS_PER_DAY : ℚ := 86400

/-- `_clamp_ratio`. -/
def clampRatio (v : ℚ) : ℚ := if v < 0 then 0 else if 1 < v then 1 else v

/-- UTC midnight of the day containing `now`
(`datetime.combine(now.date(), datetime.min.time(), tzinfo=UTC)` over epoch
seconds). -/
def dayStart (now : ℚ) : ℚ := (⌊now / 86400⌋ : ℚ) * 86400

/-- `_calculate_uptime_ratio`: sum the lengths of the heartbeat coverage intervals
`[t, t + timeout]` clipped to the window — overlapping intervals are summed, not
merged, and the ratio is clamped to [0,1] afterwards — including the most recent
heartbeat before the window start.  The ascending ordering of the points query does
not affect the sum and is dropped; `total_seconds()` and the final division by
86400 are exact at the inputs evaluated below. -/
def calculate_uptime_ratio (db : Db) (workerId : ℕ) (timeoutSeconds : ℤ)
    (windowStart windowEnd : ℚ) : ℚ :=
  if timeoutSeconds ≤ 0 ∨ windowEnd ≤ windowStart then 0
  else
    let inWindow := (db.heartbeats.filter (fun h =>
      decide (h.workerId = workerId ∧ windowStart ≤ h.recordedAt ∧
        h.recordedAt ≤ windowEnd))).map (·.recordedAt)
    let previousPoint := firstRowBy (fun t1 t2 => decide (t2 < t1))
      ((db.heartbeats.filter (fun h =>
        decide (h.workerId = workerId ∧ h.recordedAt < windowStart))).map (·.recordedAt))
    let points := match previousPoint with
      | some p => p :: inWindow
      | none => inWindow
    let covered := (points.map (fun t =>
      let rangeStart := max t windowStart
      let rangeEnd := min (t + (timeoutSeconds : ℚ)) windowEnd
      if rangeStart < rangeEnd then rangeEnd - rangeStart else 0)).sum
    clampRatio (quantize8 (covered / SECONDS_PER_DAY))

/-- The `daily_emission` ledger total since UTC midnight of the current day. -/
def emittedTodaySum (db : Db) (now : ℚ) : ℚ :=
  ((db.ledger.filter (fun e =>
    decide (e.entryType = "daily_emission" ∧ dayStart now ≤ e.createdAt))).map (·.amount)).sum

/-- The `DailyEmissionStatus` payload (the `date` field is omitted). -/
structure DailyEmissionStatus where
  capTokens : ℚ
  emittedTodayTokens : ℚ
  remainingTokens : ℚ
  runCompleted : Bool

/-- `get_daily_emission_status`. -/
def get_daily_emission_status (db : Db) (cfg : EmissionConfig) (now : ℚ) :
    DailyEmissionStatus :=
  let emittedToday := emittedTodaySum db now
  let capTokens := quantize8 cfg.dailyEmissionCapTokens
  { capTokens := capTokens
    emittedTodayTokens := quantize8 emittedToday
    remainingTokens := quantize8 (max 0 (capTokens - emittedToday))
    runCompleted := decide (0 < emittedToday) }

/-- The `DailyEmissionWorkerPayout` dataclass. -/
structure DailyEmissionWorkerPayout where
  workerId : ℕ
  workerOwnerId : ℕ
  uptimeRatio : ℚ
  reputation : ℚ
  emissionTokens : ℚ
deriving DecidableEq

/-- The `DailyEmissionResult` dataclass (the `target_day` field is omitted). -/
structure DailyEmissionResult where
  capTokens : ℚ
  emittedTokens : ℚ
  workersRewarded : ℕ
  payouts : List DailyEmissionWorkerPayout

/-- `_get_or_create_owner_account`: the worker-owner's user TOK account; same
lookup-or-insert as the finance helper specialised to `(user, owner, "TOK")`. -/
def get_or_create_owner_account (db : Db) (ownerUserId : ℕ) : ℕ × Db :=
  get_or_create_account db .user ownerUserId TOKEN_CURRENCY

/-- The per-worker body of the provisional loop of `run_daily_emission`; `none`
when one of the three `continue` guards fires. -/
def provisionalPayout (db : Db) (baseTokens windowStart windowEnd : ℚ) (w : Worker) :
    Option DailyEmissionWorkerPayout :=
  let timeoutSeconds : ℤ := match db.workerSettingsFor w.id with
    | some s => s.heartbeatTimeoutSeconds
    | none => 30
  let uptimeRatio := calculate_uptime_ratio db w.id timeoutSeconds windowStart windowEnd
  if uptimeRatio ≤ 0 then none
  else
    let reputationValue : ℚ := match jgetField (w.specsJson.getD []) "reputation" with
      | some (.jint n) => (n : ℚ)
      | some (.jnum q) => q
      -- an unparsable string raises uncaught in the source; not exercised below
      | some (.jstr s) => (pyDecimalOfString s).getD 0
      | some _ => 0
      | none => 1/2
    let reputation := clampRatio (quantize8 reputationValue)
    if reputation ≤ 0 then none
    else
      let amount := quantize8 (baseTokens * uptimeRatio * reputation)
      if amount ≤ 0 then none
      else some ⟨w.id, w.ownerUserId, uptimeRatio, reputation, amount⟩

/-- The body of the final payout loop of `run_daily_emission`: skip the worker when
the scaled amount quantizes to ≤ 0, otherwise credit the owner's TOK account and
insert the `daily_emission` ledger row in the same transaction, accumulating the
emitted total and the payout record. -/
def emissionPayoutStep (now scaleFactor : ℚ)
    (acc : Db × ℚ × List DailyEmissionWorkerPayout) (item : DailyEmissionWorkerPayout) :
    Db × ℚ × List DailyEmissionWorkerPayout :=
  let db0 := acc.1
  let emittedTotal := acc.2.1
  let payouts := acc.2.2
  let finalAmount := quantize8 (item.emissionTokens * scaleFactor)
  if finalAmount ≤ 0 then (db0, emittedTotal, payouts)
  else
    let step := get_or_create_owner_account db0 item.workerOwnerId
    let db1 := step.2.updateAccount step.1 (fun a =>
      { a with balance := a.balance + finalAmount })
    let db2 := { db1 with ledger := db1.ledger ++
      [⟨step.1, none, none, finalAmount, "daily_emission", now⟩] }
    (db2, emittedTotal + finalAmount,
      payouts ++ [⟨item.workerId, item.workerOwnerId, item.uptimeRatio,
        item.reputation, finalAmount⟩])

/-- `run_daily_emission`.  The only early return is `remaining_cap ≤ 0` (the cap
already reached); the `run_completed` flag of the status is *not* consulted here
(the scheduler checks it before calling).  The scale division
`remaining_cap / provisional_total` is `Decimal` division (28 significant digits,
half-even), modelled by the exact quotient: at every input evaluated in a theorem
below, the 8-decimal quantization of each `provisional × scale` agrees for the
exact and the 28-digit quotient. -/
def run_daily_emission (db : Db) (cfg : EmissionConfig) (now : ℚ) :
    Db × DailyEmissionResult :=
  let windowEnd := now
  let windowStart := now - 86400
  let capTokens := quantize8 cfg.dailyEmissionCapTokens
  let remainingCap := (get_daily_emission_status db cfg now).remainingTokens
  if remainingCap ≤ 0 then (db, ⟨capTokens, 0, 0, []⟩)
  else
    let baseTokens := quantize8 cfg.dailyEmissionBaseTokens
    let provisional := db.workers.filterMap (provisionalPayout db baseTokens windowStart windowEnd)
    let provisionalTotal := (provisional.map (·.emissionTokens)).sum
    if provisionalTotal ≤ 0 then (db, ⟨capTokens, 0, 0, []⟩)
    else
      let scaleFactor : ℚ :=
        if provisionalTotal ≤ remainingCap then 1 else remainingCap / provisionalTotal
      let out := provisional.foldl (emissionPayoutStep now scaleFactor)
        ((db, 0, []) : Db × ℚ × List DailyEmissionWorkerPayout)
      (out.1, ⟨capTokens, quantize8 out.2.1, out.2.2.length, out.2.2⟩)

/-! ## Generic lemmas about the query helpers -/

theorem firstMinBy_cons {α : Type} (lt : α → α → Bool) (x y : α) (ys : List α) :
    firstMinBy lt x (y :: ys) = firstMinBy lt (if lt y x then y else x) ys := rfl

theorem firstMinBy_mem {α : Type} (lt : α → α → Bool) (x : α) (xs : List α) :
    firstMinBy lt x xs = x ∨ firstMinBy lt x xs ∈ xs := by
  induction xs generalizing x with
  | nil => left; rfl
  | cons y ys ih =>
    rw [firstMinBy_cons]
    by_cases h : lt y x
    · rw [if_pos h]
      rcases ih y with h2 | h2
      · right; rw [h2]; exact List.mem_cons_self y ys
      · right; exact List.mem_cons_of_mem y h2
    · rw [if_neg h]
      rcases ih x with h2 | h2
      · left; exact h2
      · right; exact List.mem_cons_of_mem y h2

theorem firstRowBy_mem {α : Type} (lt : α → α → Bool) {l : List α} {x : α}
    (h : firstRowBy lt l = some x) : x ∈ l := by
  cases l with
  | nil => simp [firstRowBy] at h
  | cons y ys =>
    simp only [firstRowBy, Option.some.injEq] at h
    rcases firstMinBy_mem lt y ys with h2 | h2
    · rw [← h, h2]; exact List.mem_cons_self y ys
    · rw [← h]; exact List.mem_cons_of_mem y h2

theorem find?_map_of_pred_invariant {α : Type} (l : List α) (p : α → Bool) (f : α → α)
    (hp : ∀ x, p (f x) = p x) :
    (l.map f).find? p = (l.find? p).map f := by
  induction l with
  | nil => rfl
  | cons y ys ih =>
    simp only [List.map_cons]
    by_cases h : p y = true
    · rw [List.find?_cons_of_pos _ (by rw [hp]; exact h), List.find?_cons_of_pos _ h]
      rfl
    · rw [List.find?_cons_of_neg _ (by rw [hp]; simpa using h),
        List.find?_cons_of_neg _ (by simpa using h)]
      exact ih

theorem ledgerSumFor_append (l1 l2 : List LedgerEntry) (x : ℕ) :
    ledgerSumFor (l1 ++ l2) x = ledgerSumFor l1 x + ledgerSumFor l2 x := by
  simp [ledgerSumFor, List.filter_append]

theorem ledgerSumFor_single (e : LedgerEntry) (x : ℕ) :
    ledgerSumFor [e] x = if e.accountId = x then e.amount else 0 := by
  by_cases h : e.accountId = x <;> simp [ledgerSumFor, List.filter, h]

/-! ## C10: poll response and read-only behaviour -/

/-- C10: for every successful poll call, the `cost_hint_tokens` field of the response
equals the polled job's integer `priority` column (not a pricing- or payload-derived
token estimate), the rest of the response is the assignment's job payload and nonce,
and the poll mutates no stored state. -/
theorem poll_job_cost_hint_priority (db : Db) (uid wid : ℕ) (resp : JobPollResponse)
    (h : (poll_job db uid wid).1 = .ok resp) :
    (poll_job db uid wid).2 = db ∧
    ∃ w, get_owned_worker db wid uid = some w ∧
    ∃ a ∈ db.assignments, a.workerId = some w.id ∧ a.status = .assigned ∧
    ∃ job, db.getJob a.jobId = some job ∧
      resp.assignmentId = a.id ∧ resp.job = job.payload ∧ resp.nonce = a.nonce ∧
      resp.costHintTokens = job.priority := by
  cases hw : get_owned_worker db wid uid with
  | none => simp only [poll_job, hw] at h; exact absurd h (by simp)
  | some w =>
    cases ha : firstRowBy assignedAtLt (db.assignments.filter (fun a =>
        decide (a.workerId = some w.id ∧ a.status = .assigned))) with
    | none => simp only [poll_job, hw, ha] at h; exact absurd h (by simp)
    | some a =>
      cases hj : db.getJob a.jobId with
      | none => simp only [poll_job, hw, ha, hj] at h; exact absurd h (by simp)
      | some job =>
        have hpoll : poll_job db uid wid =
            (.ok ⟨a.id, job.payload, a.nonce, job.priority⟩, db) := by
          simp only [poll_job, hw, ha, hj]
        rw [hpoll] at h
        injection h with h2
        refine ⟨by rw [hpoll], w, rfl, a, ?_, ?_, ?_, job, hj, ?_⟩
        · exact List.mem_of_mem_filter (firstRowBy_mem _ ha)
        · have := List.of_mem_filter (firstRowBy_mem _ ha)
          exact (of_decide_eq_true this).1
        · have := List.of_mem_filter (firstRowBy_mem _ ha)
          exact (of_decide_eq_true this).2
        · rw [← h2]; exact ⟨rfl, rfl, rfl, rfl⟩

/-- A concrete one-worker, one-job, one-assignment state used to evaluate the poll
and heartbeat handlers. -/
def pollDb : Db :=
  { workers := [⟨1, 7, .online, some [], some "pk", none⟩]
    workerSettingsRows := []
    heartbeats := []
    jobs := [⟨5, some 3, .inference, .running, .jobj [("prompt", .jstr "hello")], 42, none⟩]
    assignments := [⟨9, 5, some 1, .assigned, 0, none, "n1"⟩]
    results := []
    accounts := []
    ledger := []
    poolSettings := none
    pricingRules := []
    nextAssignmentId := 10
    nextAccountId := 1 }

theorem poll_job_cost_hint_priority_witness :
    (poll_job pollDb 7 1).2 = pollDb ∧
    (poll_job pollDb 7 1).1 = .ok ⟨9, .jobj [("prompt", .jstr "hello")], "n1", 42⟩ :=
  ⟨(poll_job_cost_hint_priority pollDb 7 1 ⟨9, .jobj [("prompt", .jstr "hello")], "n1", 42⟩
      (by rfl)).1, by rfl⟩

/-! ## C6: heartbeat on a banned worker -/

/-- A state whose only worker (id 1, owned by user 7) is banned. -/
def bannedWorkerDb : Db :=
  { workers := [⟨1, 7, .banned, some [], some "pk", none⟩]
    workerSettingsRows := []
    heartbeats := []
    jobs := []
    assignments := []
    results := []
    accounts := []
    ledger := []
    poolSettings := none
    pricingRules := []
    nextAssignmentId := 1
    nextAccountId := 1 }

/-- C6 (code bug): `heartbeat_worker` assigns `status = WorkerStatus.ONLINE`
unconditionally, so a worker-owner heartbeat on a banned worker moves the status
from `banned` to `online` — `banned` is not monotonic under heartbeat, contradicting
the specified invariant. -/
theorem heartbeat_unbans_banned_worker :
    (bannedWorkerDb.getWorker 1).map (·.status) = some .banned ∧
    (((heartbeat_worker bannedWorkerDb 7 1 0).2.getWorker 1).map (·.status)
      = some .online) ∧
    (heartbeat_worker bannedWorkerDb 7 1 0).1 =
      .ok ⟨1, 0⟩ := by
  refine ⟨rfl, rfl, rfl⟩

/-! ## C7: re-running the daily emission -/

theorem quantize8_zero : quantize8 0 = 0 := by with_unfolding_all decide

/-- A state in which 10 tokens of `daily_emission` were already created during the
current UTC day (`now = 129600`, day start 86400), and one online worker (owner 7)
has a heartbeat covering the whole 24h window (timeout 86400 s). -/
def rerunDb : Db :=
  { workers := [⟨1, 7, .online, some [], none, none⟩]
    workerSettingsRows := [⟨1, 1, 86400, true⟩]
    heartbeats := [⟨1, 43200⟩]
    jobs := []
    assignments := []
    results := []
    accounts := [⟨0, .user, 7, "TOK", 10⟩]
    ledger := [⟨0, none, none, 10, "daily_emission", 90000⟩]
    poolSettings := none
    pricingRules := []
    nextAssignmentId := 1
    nextAccountId := 1 }

/-- The emission configuration for the counterexample: base 24, cap 100. -/
def rerunCfg : EmissionConfig := ⟨24, 100⟩

/-- C7 (counterexample): with `emitted_today = 10 > 0` against a cap of 100,
calling `run_daily_emission` again on the same UTC day emits 12 further tokens
(base 24 × uptime 1 × default reputation 0.5) and creates a ledger entry: the
function's only early return is `remaining ≤ 0`; it does not consult
`run_completed = (emitted_today > 0)`. -/
theorem run_daily_emission_rerun_emits_again :
    0 < emittedTodaySum rerunDb 129600 ∧
    (run_daily_emission rerunDb rerunCfg 129600).2.emittedTokens = 12 ∧
    (run_daily_emission rerunDb rerunCfg 129600).1.ledger.length
      = rerunDb.ledger.length + 1 := by
  refine ⟨by with_unfolding_all decide, by with_unfolding_all decide,
    by with_unfolding_all decide⟩

/-- C7 (amended): when the current UTC day's `daily_emission` total has already
reached the cap (`remaining = max(0, cap − emitted_today) ≤ 0`), a rerun of
`run_daily_emission` on that day creates no ledger entries and changes no account
balances (the state is returned unchanged) and reports zero emitted tokens.  For
`0 < emitted_today < cap` a rerun emits again (see the counterexample); same-day
reruns are instead prevented one level up, by the scheduler's check of
`status.run_completed = (emitted_today > 0)`. -/
theorem run_daily_emission_capped_rerun (db : Db) (cfg : EmissionConfig) (now : ℚ)
    (h : quantize8 cfg.dailyEmissionCapTokens ≤ emittedTodaySum db now) :
    (run_daily_emission db cfg now).1 = db ∧
    (run_daily_emission db cfg now).2.emittedTokens = 0 ∧
    (run_daily_emission db cfg now).2.payouts = [] := by
  have hrem : (get_daily_emission_status db cfg now).remainingTokens ≤ 0 := by
    simp only [get_daily_emission_status]
    have hmax : max 0 (quantize8 cfg.dailyEmissionCapTokens - emittedTodaySum db now) = 0 := by
      rw [max_eq_left]; linarith
    rw [hmax, quantize8_zero]
  have exp : run_daily_emission db cfg now
      = (db, ⟨quantize8 cfg.dailyEmissionCapTokens, 0, 0, []⟩) := by
    simp only [run_daily_emission]
    rw [if_pos hrem]
  rw [exp]
  exact ⟨rfl, rfl, rfl⟩

/-- The configuration whose cap (10) is already exhausted in `rerunDb`. -/
def cappedCfg : EmissionConfig := ⟨24, 10⟩

theorem run_daily_emission_capped_rerun_witness :
    (run_daily_emission rerunDb cappedCfg 129600).1 = rerunDb ∧
    (run_daily_emission rerunDb cappedCfg 129600).2.emittedTokens = 0 :=
  ⟨(run_daily_emission_capped_rerun rerunDb cappedCfg 129600 (by with_unfolding_all decide)).1,
   (run_daily_emission_capped_rerun rerunDb cappedCfg 129600 (by with_unfolding_all decide)).2.1⟩

/-! ## C8: the daily emission cap -/

/-- Two online workers (ids 1 and 2, owners 1 and 2) with stored reputation 1 and a
heartbeat covering the whole window (timeout 86400 s); no ledger entries yet. -/
def capBustDb : Db :=
  { workers := [⟨1, 1, .online, some [("reputation", .jint 1)], none, none⟩,
                ⟨2, 2, .online, some [("reputation", .jint 1)], none, none⟩]
    workerSettingsRows := [⟨1, 1, 86400, true⟩, ⟨2, 1, 86400, true⟩]
    heartbeats := [⟨1, 43200⟩, ⟨2, 43200⟩]
    jobs := []
    assignments := []
    results := []
    accounts := []
    ledger := []
    poolSettings := none
    pricingRules := []
    nextAssignmentId := 1
    nextAccountId := 0 }

/-- Base 0.00000002, cap 0.00000003 tokens. -/
def capBustCfg : EmissionConfig := ⟨mkRat 2 100000000, mkRat 3 100000000⟩

/-- The state after the first payout of the C8 counterexample run: owner 1's fresh
TOK account (id 0) credited 2e-8 with the matching `daily_emission` row. -/
def emitDb1 : Db :=
  { capBustDb with
    accounts := [⟨0, .user, 1, "TOK", 2/100000000⟩]
    ledger := [⟨0, none, none, 2/100000000, "daily_emission", 129600⟩]
    nextAccountId := 1 }

/-- The state after both payouts of the C8 counterexample run. -/
def emitDb2 : Db :=
  { capBustDb with
    accounts := [⟨0, .user, 1, "TOK", 2/100000000⟩, ⟨1, .user, 2, "TOK", 2/100000000⟩]
    ledger := [⟨0, none, none, 2/100000000, "daily_emission", 129600⟩,
               ⟨1, none, none, 2/100000000, "daily_emission", 129600⟩]
    nextAccountId := 2 }

/-- C8 (code bug): with cap 3e-8 and two provisional payouts of 2e-8 each, the scale
factor is `3e-8 / 4e-8 = 0.75` (exact, also as a Python `Decimal`), and each final
payout `(2e-8 × 0.75).quantize(8 dp)` is 0.000000015, which the default half-even
rounding takes UP to 0.00000002; the run therefore emits 4e-8 > cap: the day's
`daily_emission` ledger total exceeds `daily_emission_cap_tokens`, and within the
run the sum of the final payouts exceeds the remaining cap, violating the claimed
invariant. -/
theorem run_daily_emission_exceeds_cap :
    (run_daily_emission capBustDb capBustCfg 129600).2.emittedTokens = 4/100000000 ∧
    emittedTodaySum (run_daily_emission capBustDb capBustCfg 129600).1 129600
      = 4/100000000 ∧
    quantize8 capBustCfg.dailyEmissionCapTokens < 4/100000000 := by
  have hrem : (get_daily_emission_status capBustDb capBustCfg 129600).remainingTokens
      = 3/100000000 := by
    norm_num [get_daily_emission_status, emittedTodaySum, dayStart, capBustDb, capBustCfg,
      quantize8, roundHalfEven, max_def]
  have hup1 : calculate_uptime_ratio capBustDb 1 86400 43200 129600 = 1 := by
    norm_num [calculate_uptime_ratio, capBustDb, clampRatio, quantize8, roundHalfEven,
      SECONDS_PER_DAY, firstRowBy, firstMinBy, max_def, min_def, List.filter]
  have hup2 : calculate_uptime_ratio capBustDb 2 86400 43200 129600 = 1 := by
    norm_num [calculate_uptime_ratio, capBustDb, clampRatio, quantize8, roundHalfEven,
      SECONDS_PER_DAY, firstRowBy, firstMinBy, max_def, min_def, List.filter]
  have hws : capBustDb.workers
      = [⟨1, 1, .online, some [("reputation", .jint 1)], none, none⟩,
         ⟨2, 2, .online, some [("reputation", .jint 1)], none, none⟩] := rfl
  have hset1 : Db.workerSettingsFor capBustDb 1 = some ⟨1, 1, 86400, true⟩ := by rfl
  have hset2 : Db.workerSettingsFor capBustDb 2 = some ⟨2, 1, 86400, true⟩ := by rfl
  have hfm : capBustDb.workers.filterMap (provisionalPayout capBustDb
      (quantize8 capBustCfg.dailyEmissionBaseTokens) (129600 - 86400) 129600)
      = [⟨1, 1, 1, 1, 2/100000000⟩, ⟨2, 2, 1, 1, 2/100000000⟩] := by
    norm_num [hws, provisionalPayout, hset1, hset2, jgetField,
      hup1, hup2, capBustCfg, clampRatio, quantize8, roundHalfEven, List.filterMap]
  have hsum : (([⟨1, 1, 1, 1, 2/100000000⟩, ⟨2, 2, 1, 1, 2/100000000⟩]
      : List DailyEmissionWorkerPayout).map (·.emissionTokens)).sum = 4/100000000 := by
    norm_num
  have hstep1 : emissionPayoutStep 129600 ((3/100000000) / (4/100000000))
      (capBustDb, 0, []) ⟨1, 1, 1, 1, 2/100000000⟩
      = (emitDb1, 2/100000000, [⟨1, 1, 1, 1, 2/100000000⟩]) := by
    norm_num [emissionPayoutStep, get_or_create_owner_account, get_or_create_account,
      quantize8, roundHalfEven, capBustDb, emitDb1, Db.updateAccount, TOKEN_CURRENCY]
  have hstep2 : emissionPayoutStep 129600 ((3/100000000) / (4/100000000))
      (emitDb1, 2/100000000, [⟨1, 1, 1, 1, 2/100000000⟩]) ⟨2, 2, 1, 1, 2/100000000⟩
      = (emitDb2, 4/100000000,
          [⟨1, 1, 1, 1, 2/100000000⟩, ⟨2, 2, 1, 1, 2/100000000⟩]) := by
    norm_num [emissionPayoutStep, get_or_create_owner_account, get_or_create_account,
      quantize8, roundHalfEven, capBustDb, emitDb1, emitDb2, Db.updateAccount,
      TOKEN_CURRENCY]
  have hrun : run_daily_emission capBustDb capBustCfg 129600
      = (emitDb2, ⟨quantize8 capBustCfg.dailyEmissionCapTokens, 4/100000000, 2,
          [⟨1, 1, 1, 1, 2/100000000⟩, ⟨2, 2, 1, 1, 2/100000000⟩]⟩) := by
    simp only [run_daily_emission, hfm, hsum, hrem]
    rw [if_neg (by norm_num : ¬((3/100000000 : ℚ) ≤ 0)),
      if_neg (by norm_num : ¬((4/100000000 : ℚ) ≤ 0)),
      if_neg (by norm_num : ¬((4/100000000 : ℚ) ≤ 3/100000000))]
    simp only [List.foldl_cons, List.foldl_nil, hstep1, hstep2]
    refine Prod.ext rfl ?_
    norm_num [quantize8, roundHalfEven]
  rw [hrun]
  refine ⟨rfl, ?_, ?_⟩
  · norm_num [emittedTodaySum, emitDb2, capBustDb, dayStart]
  · norm_num [capBustCfg, quantize8, roundHalfEven]

/-! ## C1: double-entry accounting -/

theorem get_or_create_account_ledger (db : Db) (ot : OwnerType) (oid : ℕ) (cur : String) :
    (get_or_create_account db ot oid cur).2.ledger = db.ledger := by
  unfold get_or_create_account
  cases db.accounts.find? (fun a =>
      decide (a.ownerType = ot ∧ a.ownerId = oid ∧ a.currency = cur)) <;> rfl

theorem get_or_create_account_next_le (db : Db) (ot : OwnerType) (oid : ℕ) (cur : String) :
    db.nextAccountId ≤ (get_or_create_account db ot oid cur).2.nextAccountId := by
  unfold get_or_create_account
  cases db.accounts.find? (fun a =>
      decide (a.ownerType = ot ∧ a.ownerId = oid ∧ a.currency = cur)) <;> simp

theorem get_or_create_account_mem (db : Db) (ot : OwnerType) (oid : ℕ) (cur : String)
    {acct : Account} (h : acct ∈ db.accounts) :
    acct ∈ (get_or_create_account db ot oid cur).2.accounts := by
  unfold get_or_create_account
  cases db.accounts.find? (fun a =>
      decide (a.ownerType = ot ∧ a.ownerId = oid ∧ a.currency = cur)) with
  | none => exact List.mem_append_left _ h
  | some a => exact h

theorem get_or_create_account_found (db : Db) (ot : OwnerType) (oid : ℕ) (cur : String)
    (hlt : ∀ a ∈ db.accounts, a.id < db.nextAccountId) :
    ∃ acct ∈ (get_or_create_account db ot oid cur).2.accounts,
      acct.id = (get_or_create_account db ot oid cur).1 ∧
      acct.id < (get_or_create_account db ot oid cur).2.nextAccountId := by
  unfold get_or_create_account
  cases hf : db.accounts.find? (fun a =>
      decide (a.ownerType = ot ∧ a.ownerId = oid ∧ a.currency = cur)) with
  | none =>
    refine ⟨⟨db.nextAccountId, ot, oid, cur, 0⟩, ?_, rfl, by simp⟩
    simp
  | some acct =>
    exact ⟨acct, List.mem_of_find?_eq_some hf, rfl,
      hlt acct (List.mem_of_find?_eq_some hf)⟩

theorem acctBalance_get_or_create (db : Db) (ot : OwnerType) (oid : ℕ) (cur : String)
    (x : ℕ) :
    acctBalance (get_or_create_account db ot oid cur).2 x = acctBalance db x := by
  unfold get_or_create_account acctBalance
  cases hf : db.accounts.find? (fun a =>
      decide (a.ownerType = ot ∧ a.ownerId = oid ∧ a.currency = cur)) with
  | some a => rfl
  | none =>
    simp only
    rw [List.find?_append]
    cases hx : db.accounts.find? (fun a => decide (a.id = x)) with
    | some a => rfl
    | none =>
      simp only [Option.none_orElse]
      by_cases hxn : x = db.nextAccountId
      · subst hxn
        simp
      · simp [Ne.symm hxn]

theorem create_ledger_entry_ledger (db : Db) (i : ℕ) (amt : ℚ) (r : String)
    (a : Assignment) (now : ℚ) :
    (create_ledger_entry db i amt r a now).ledger
      = db.ledger ++ [⟨i, some a.jobId, some a.id, amt, r, now⟩] := rfl

theorem create_ledger_entry_accounts_find (db : Db) (i : ℕ) (amt : ℚ) (r : String)
    (a : Assignment) (now : ℚ) (p : Account → Bool)
    (hp : ∀ acct : Account, p { acct with balance := acct.balance + amt } = p acct) :
    ((create_ledger_entry db i amt r a now).accounts.find? p)
      = (db.accounts.find? p).map (fun acct =>
          if acct.id = i then { acct with balance := acct.balance + amt } else acct) := by
  unfold create_ledger_entry Db.updateAccount
  simp only
  refine find?_map_of_pred_invariant db.accounts p _ (fun acct => ?_)
  by_cases h : acct.id = i
  · rw [if_pos h]; exact hp acct
  · rw [if_neg h]

theorem acctBalance_create_ledger_entry (db : Db) (i : ℕ) (amt : ℚ) (r : String)
    (a : Assignment) (now : ℚ)
    (hex : ∃ acct ∈ db.accounts, acct.id = i) (x : ℕ) :
    acctBalance (create_ledger_entry db i amt r a now) x
      = acctBalance db x + (if i = x then amt else 0) := by
  unfold acctBalance
  rw [create_ledger_entry_accounts_find db i amt r a now
    (fun acct => decide (acct.id = x)) (fun acct => rfl)]
  cases hx : db.accounts.find? (fun acct => decide (acct.id = x)) with
  | none =>
    by_cases hix : i = x
    · subst hix
      obtain ⟨acct, hmem, hid⟩ := hex
      have := List.find?_eq_none.mp hx acct hmem
      simp [hid] at this
    · simp [hix]
  | some acct =>
    have hid : acct.id = x := by
      have := List.find?_some hx
      simpa using this
    by_cases hix : i = x
    · subst hix
      simp [hid]
    · simp [hid, Ne.symm hix, hix]

theorem create_ledger_entry_mem_accounts (db : Db) (i : ℕ) (amt : ℚ) (r : String)
    (a : Assignment) (now : ℚ) {acct : Account} (h : acct ∈ db.accounts) :
    ∃ acct2 ∈ (create_ledger_entry db i amt r a now).accounts, acct2.id = acct.id := by
  unfold create_ledger_entry Db.updateAccount
  simp only
  refine ⟨if acct.id = i then { acct with balance := acct.balance + amt } else acct,
    List.mem_map_of_mem _ h, ?_⟩
  by_cases hid : acct.id = i <;> simp [hid]

/-- The `pool_fee_bps` read of the accounting path (`db.get(PoolSettings, 1)`,
defaulting to 0). -/
def accPoolFeeBps (db : Db) : ℤ :=
  match db.poolSettings with
  | some ps => ps.poolFeeBps
  | none => 0

/-- `cost = (Decimal(units) * unit_cost_tokens).quantize(8 dp)`. -/
def accCost (job : Job) (rule : PricingRule) : ℚ :=
  quantize8 ((estimate_payload_units job.payload : ℚ) * rule.unitCostTokens)

/-- `pool_fee = (cost * Decimal(pool_fee_bps) / Decimal(10_000)).quantize(8 dp)`. -/
def accPoolFee (db : Db) (job : Job) (rule : PricingRule) : ℚ :=
  quantize8 (accCost job rule * (accPoolFeeBps db : ℚ) / 10000)

/-- The client account resolution step of the accounting path. -/
def accStep1 (db : Db) (cuid : ℕ) : ℕ × Db :=
  get_or_create_account db .user cuid TOKEN_CURRENCY

/-- The pool account resolution step. -/
def accStep2 (db : Db) (cuid : ℕ) : ℕ × Db :=
  get_or_create_account (accStep1 db cuid).2 .system POOL_ACCOUNT_OWNER_ID TOKEN_CURRENCY

/-- The worker-owner account resolution step. -/
def accStep3 (db : Db) (cuid : ℕ) (w : Worker) : ℕ × Db :=
  get_or_create_account (accStep2 db cuid).2 .user w.ownerUserId TOKEN_CURRENCY

/-- The accounting path of `apply_job_verification_accounting` once every guard
passes: accounts are resolved in order (client, pool, worker-owner) and the three
entries are posted. -/
theorem apply_job_verification_accounting_eq (db : Db) (aid : ℕ) (now : ℚ)
    (a : Assignment) (r : Result) (w : Worker) (job : Job) (cuid wid : ℕ)
    (rule : PricingRule)
    (h1 : db.getAssignment aid = some a)
    (h2 : db.resultFor aid = some r)
    (h3 : r.verificationStatus = .verified)
    (h4 : a.workerId = some wid)
    (h5 : db.getWorker wid = some w)
    (h6 : db.getJob a.jobId = some job)
    (h7 : job.createdByUserId = some cuid)
    (h8 : a.status ≠ .failed) (h8b : a.status ≠ .canceled)
    (h9 : job.status ≠ .failed) (h9b : job.status ≠ .canceled)
    (h10 : db.ledger.find? (fun e =>
      decide (e.assignmentId = some aid ∧ e.entryType = "job_charge")) = none)
    (h11 : active_pricing_rule db job.jobType = some rule) :
    apply_job_verification_accounting db aid now =
      create_ledger_entry
        (create_ledger_entry
          (create_ledger_entry (accStep3 db cuid w).2 (accStep1 db cuid).1
            (-(accCost job rule)) "job_charge" a now)
          (accStep2 db cuid).1 (accPoolFee db job rule) "pool_fee" a now)
        (accStep3 db cuid w).1 (accCost job rule - accPoolFee db job rule)
        "worker_reward" a now := by
  simp only [apply_job_verification_accounting, h1, h2, h3, h4, h5, h6, h7, h10, h11,
    Option.some_bind, Option.isSome_none, ne_eq, not_true_eq_false, Bool.false_eq_true,
    if_false, ite_false, eq_self_iff_true, accStep1, accStep2, accStep3, accCost,
    accPoolFee, accPoolFeeBps]
  rw [if_neg (by simp [h8, h8b] : ¬(a.status = .failed ∨ a.status = .canceled)),
    if_neg (by simp [h9, h9b] : ¬(job.status = .failed ∨ job.status = .canceled))]

theorem get_or_create_account_lt (db : Db) (ot : OwnerType) (oid : ℕ) (cur : String)
    (hlt : ∀ acct ∈ db.accounts, acct.id < db.nextAccountId) :
    ∀ acct ∈ (get_or_create_account db ot oid cur).2.accounts,
      acct.id < (get_or_create_account db ot oid cur).2.nextAccountId := by
  unfold get_or_create_account
  cases hf : db.accounts.find? (fun a =>
      decide (a.ownerType = ot ∧ a.ownerId = oid ∧ a.currency = cur)) with
  | some a => exact hlt
  | none =>
    intro acct hmem
    simp only at hmem ⊢
    rcases List.mem_append.mp hmem with h | h
    · exact Nat.lt_succ_of_lt (hlt acct h)
    · rw [List.mem_singleton.mp h]
      exact Nat.lt_succ_self _

theorem ledgerSumFor_triple (e1 e2 e3 : LedgerEntry) (x : ℕ) :
    ledgerSumFor [e1, e2, e3] x = (if e1.accountId = x then e1.amount else 0)
      + ((if e2.accountId = x then e2.amount else 0)
        + (if e3.accountId = x then e3.amount else 0)) := by
  have h : ([e1, e2, e3] : List LedgerEntry) = [e1] ++ ([e2] ++ [e3]) := rfl
  rw [h, ledgerSumFor_append, ledgerSumFor_append, ledgerSumFor_single,
    ledgerSumFor_single, ledgerSumFor_single]

/-- C1: whenever `apply_job_verification_accounting` posts entries (every guard
passes and an active pricing rule exists), exactly three ledger rows are appended
for the assignment — `job_charge` of −cost on the client's TOK account, `pool_fee`
of +pool_fee on the system pool account (owner id 1), and `worker_reward` of
cost − pool_fee on the worker-owner's TOK account —, the three amounts sum to
exactly zero, every account's balance changes by exactly the total amount posted to
it, and the invariant "account balance = running sum of its ledger entry amounts"
is preserved. -/
theorem apply_job_verification_accounting_double_entry
    (db : Db) (aid : ℕ) (now : ℚ) (a : Assignment) (r : Result) (w : Worker)
    (job : Job) (cuid wid : ℕ) (rule : PricingRule)
    (h1 : db.getAssignment aid = some a)
    (h2 : db.resultFor aid = some r)
    (h3 : r.verificationStatus = .verified)
    (h4 : a.workerId = some wid)
    (h5 : db.getWorker wid = some w)
    (h6 : db.getJob a.jobId = some job)
    (h7 : job.createdByUserId = some cuid)
    (h8 : a.status ≠ .failed) (h8b : a.status ≠ .canceled)
    (h9 : job.status ≠ .failed) (h9b : job.status ≠ .canceled)
    (h10 : db.ledger.find? (fun e =>
      decide (e.assignmentId = some aid ∧ e.entryType = "job_charge")) = none)
    (h11 : active_pricing_rule db job.jobType = some rule)
    (hwf : DbWF db) :
    (apply_job_verification_accounting db aid now).ledger = db.ledger ++
      [⟨(accStep1 db cuid).1, some a.jobId, some a.id, -(accCost job rule),
          "job_charge", now⟩,
       ⟨(accStep2 db cuid).1, some a.jobId, some a.id, accPoolFee db job rule,
          "pool_fee", now⟩,
       ⟨(accStep3 db cuid w).1, some a.jobId, some a.id,
          accCost job rule - accPoolFee db job rule, "worker_reward", now⟩] ∧
    (-(accCost job rule)) + accPoolFee db job rule
      + (accCost job rule - accPoolFee db job rule) = 0 ∧
    (∀ x : ℕ, acctBalance (apply_job_verification_accounting db aid now) x
        = acctBalance db x + ledgerSumFor
          [⟨(accStep1 db cuid).1, some a.jobId, some a.id, -(accCost job rule),
              "job_charge", now⟩,
           ⟨(accStep2 db cuid).1, some a.jobId, some a.id, accPoolFee db job rule,
              "pool_fee", now⟩,
           ⟨(accStep3 db cuid w).1, some a.jobId, some a.id,
              accCost job rule - accPoolFee db job rule, "worker_reward", now⟩] x) ∧
    ((∀ x : ℕ, acctBalance db x = ledgerSumFor db.ledger x) →
      ∀ x : ℕ, acctBalance (apply_job_verification_accounting db aid now) x
        = ledgerSumFor (apply_job_verification_accounting db aid now).ledger x) := by
  have E := apply_job_verification_accounting_eq db aid now a r w job cuid wid rule
    h1 h2 h3 h4 h5 h6 h7 h8 h8b h9 h9b h10 h11
  have hltA : ∀ acct ∈ db.accounts, acct.id < db.nextAccountId := hwf.accountIdsLt
  have hltB : ∀ acct ∈ (accStep1 db cuid).2.accounts,
      acct.id < (accStep1 db cuid).2.nextAccountId :=
    get_or_create_account_lt db .user cuid TOKEN_CURRENCY hltA
  have hltC : ∀ acct ∈ (accStep2 db cuid).2.accounts,
      acct.id < (accStep2 db cuid).2.nextAccountId :=
    get_or_create_account_lt _ _ _ _ hltB
  have f1 : ∃ acct ∈ (accStep1 db cuid).2.accounts, acct.id = (accStep1 db cuid).1 ∧
      acct.id < (accStep1 db cuid).2.nextAccountId :=
    get_or_create_account_found db .user cuid TOKEN_CURRENCY hltA
  have f2 : ∃ acct ∈ (accStep2 db cuid).2.accounts, acct.id = (accStep2 db cuid).1 ∧
      acct.id < (accStep2 db cuid).2.nextAccountId :=
    get_or_create_account_found _ _ _ _ hltB
  have f3 : ∃ acct ∈ (accStep3 db cuid w).2.accounts, acct.id = (accStep3 db cuid w).1 ∧
      acct.id < (accStep3 db cuid w).2.nextAccountId :=
    get_or_create_account_found _ _ _ _ hltC
  have p1 : ∃ acct ∈ (accStep3 db cuid w).2.accounts, acct.id = (accStep1 db cuid).1 := by
    obtain ⟨acct, hm, hid, _⟩ := f1
    exact ⟨acct, get_or_create_account_mem _ _ _ _ (get_or_create_account_mem _ _ _ _ hm),
      hid⟩
  have p2 : ∃ acct ∈ (create_ledger_entry (accStep3 db cuid w).2 (accStep1 db cuid).1
      (-(accCost job rule)) "job_charge" a now).accounts,
      acct.id = (accStep2 db cuid).1 := by
    obtain ⟨acct, hm, hid, _⟩ := f2
    obtain ⟨acct2, hm2, hid2⟩ := create_ledger_entry_mem_accounts _ _ _ _ _ _
      (get_or_create_account_mem _ _ _ _ hm)
    exact ⟨acct2, hm2, hid2.trans hid⟩
  have p3 : ∃ acct ∈ (create_ledger_entry (create_ledger_entry (accStep3 db cuid w).2
      (accStep1 db cuid).1 (-(accCost job rule)) "job_charge" a now)
      (accStep2 db cuid).1 (accPoolFee db job rule) "pool_fee" a now).accounts,
      acct.id = (accStep3 db cuid w).1 := by
    obtain ⟨acct, hm, hid, _⟩ := f3
    obtain ⟨acct2, hm2, hid2⟩ := create_ledger_entry_mem_accounts _ _ _ _ _ _ hm
    obtain ⟨acct3, hm3, hid3⟩ := create_ledger_entry_mem_accounts _ _ _ _ _ _ hm2
    exact ⟨acct3, hm3, hid3.trans (hid2.trans hid)⟩
  have hledger : (apply_job_verification_accounting db aid now).ledger = db.ledger ++
      [⟨(accStep1 db cuid).1, some a.jobId, some a.id, -(accCost job rule),
          "job_charge", now⟩,
       ⟨(accStep2 db cuid).1, some a.jobId, some a.id, accPoolFee db job rule,
          "pool_fee", now⟩,
       ⟨(accStep3 db cuid w).1, some a.jobId, some a.id,
          accCost job rule - accPoolFee db job rule, "worker_reward", now⟩] := by
    rw [E, create_ledger_entry_ledger, create_ledger_entry_ledger,
      create_ledger_entry_ledger]
    have L3 : (accStep3 db cuid w).2.ledger = (accStep2 db cuid).2.ledger :=
      get_or_create_account_ledger _ _ _ _
    have L2 : (accStep2 db cuid).2.ledger = (accStep1 db cuid).2.ledger :=
      get_or_create_account_ledger _ _ _ _
    have L1 : (accStep1 db cuid).2.ledger = db.ledger :=
      get_or_create_account_ledger _ _ _ _
    rw [L3, L2, L1]
    simp [List.append_assoc]
  have hbal3 : ∀ x : ℕ, acctBalance (apply_job_verification_accounting db aid now) x
      = acctBalance db x + ledgerSumFor
        [⟨(accStep1 db cuid).1, some a.jobId, some a.id, -(accCost job rule),
            "job_charge", now⟩,
         ⟨(accStep2 db cuid).1, some a.jobId, some a.id, accPoolFee db job rule,
            "pool_fee", now⟩,
         ⟨(accStep3 db cuid w).1, some a.jobId, some a.id,
            accCost job rule - accPoolFee db job rule, "worker_reward", now⟩] x := by
    intro x
    rw [E]
    rw [acctBalance_create_ledger_entry _ _ _ _ _ _ p3]
    rw [acctBalance_create_ledger_entry _ _ _ _ _ _ p2]
    rw [acctBalance_create_ledger_entry _ _ _ _ _ _ p1]
    have B3 : ∀ y : ℕ, acctBalance (accStep3 db cuid w).2 y
        = acctBalance (accStep2 db cuid).2 y := fun y =>
      acctBalance_get_or_create _ _ _ _ y
    have B2 : ∀ y : ℕ, acctBalance (accStep2 db cuid).2 y
        = acctBalance (accStep1 db cuid).2 y := fun y =>
      acctBalance_get_or_create _ _ _ _ y
    have B1 : ∀ y : ℕ, acctBalance (accStep1 db cuid).2 y = acctBalance db y := fun y =>
      acctBalance_get_or_create _ _ _ _ y
    rw [B3, B2, B1, ledgerSumFor_triple]
    dsimp only
    ring
  refine ⟨hledger, by ring, hbal3, ?_⟩
  intro hbal x
  rw [hbal3 x, hbal x, hledger, ledgerSumFor_append]

/-- A concrete verified submission ready for accounting: client user 3, worker 1
owned by user 2, active pricing rule (unit cost 50), pool fee 1000 bps. -/
def accJobRow : Job := ⟨1, some 3, .inference, .running, .jobj [], 0, none⟩

/-- The assignment row of the concrete accounting state. -/
def accARow : Assignment := ⟨1, 1, some 1, .completed, 0, none, "n"⟩

/-- The verified result row of the concrete accounting state. -/
def accRRow : Result := ⟨1, none, none, none, some "h", some "s", .verified, none⟩

/-- The worker row of the concrete accounting state. -/
def accWRow : Worker := ⟨1, 2, .online, some [], some "pk", none⟩

/-- The active pricing rule of the concrete accounting state. -/
def accRuleRow : PricingRule := ⟨1, .inference, 50, true, 0⟩

/-- The concrete accounting state. -/
def accDb : Db :=
  { workers := [accWRow]
    workerSettingsRows := []
    heartbeats := []
    jobs := [accJobRow]
    assignments := [accARow]
    results := [accRRow]
    accounts := []
    ledger := []
    poolSettings := some ⟨0, 0, 2, 985/1000, 1000⟩
    pricingRules := [accRuleRow]
    nextAssignmentId := 2
    nextAccountId := 0 }

theorem apply_job_verification_accounting_double_entry_witness :
    (-(accCost accJobRow accRuleRow)) + accPoolFee accDb accJobRow accRuleRow
      + (accCost accJobRow accRuleRow - accPoolFee accDb accJobRow accRuleRow) = 0 ∧
    (apply_job_verification_accounting accDb 1 5).ledger = accDb.ledger ++
      [⟨(accStep1 accDb 3).1, some accARow.jobId, some accARow.id,
          -(accCost accJobRow accRuleRow), "job_charge", 5⟩,
       ⟨(accStep2 accDb 3).1, some accARow.jobId, some accARow.id,
          accPoolFee accDb accJobRow accRuleRow, "pool_fee", 5⟩,
       ⟨(accStep3 accDb 3 accWRow).1, some accARow.jobId, some accARow.id,
          accCost accJobRow accRuleRow - accPoolFee accDb accJobRow accRuleRow,
          "worker_reward", 5⟩] := by
  have h := apply_job_verification_accounting_double_entry accDb 1 5 accARow accRRow
    accWRow accJobRow 3 1 accRuleRow (by rfl) (by rfl) (by rfl) (by rfl) (by rfl)
    (by rfl) (by rfl) (by decide) (by decide) (by decide) (by decide) (by rfl) (by rfl)
    ⟨by decide, by decide, by decide, by decide, by decide⟩
  exact ⟨h.2.1, h.1⟩

/-! ## C9: payload units — characters vs bytes, and fee rounding -/

theorem string_length_append (s t : String) : (s ++ t).length = s.length + t.length := by
  cases s with
  | mk a =>
    cases t with
    | mk b => simp [String.length, String.append]

theorem string_utf8_append (s t : String) :
    (s ++ t).utf8ByteSize = s.utf8ByteSize + t.utf8ByteSize := by
  cases s with
  | mk a =>
    cases t with
    | mk b =>
      show (String.mk (a ++ b)).utf8ByteSize = _
      simp [String.utf8ByteSize_mk]

theorem join_map_singleton : ∀ l : List Char,
    String.join (l.map String.singleton) = ⟨l⟩ := by
  intro l
  rw [String.join_eq]
  congr 1
  induction l with
  | nil => rfl
  | cons c cs ih => simp only [List.map_cons, List.flatten_cons, ih, String.singleton]; rfl

theorem dumpJString_plain (s : String)
    (h : ∀ c ∈ s.data, escapeJsonChar c = String.singleton c) :
    dumpJString s = ⟨'"' :: (s.data ++ ['"'])⟩ := by
  unfold dumpJString
  have hmap : s.toList.map escapeJsonChar = s.data.map String.singleton :=
    List.map_congr_left h
  rw [hmap, join_map_singleton]
  cases s with
  | mk a =>
    show String.mk (('"' :: []) ++ a ++ ['"']) = String.mk ('"' :: (a ++ ['"']))
    simp

/-- Length in characters contributed by one serialized object field (`"key":value`). -/
def fieldLen (kv : String × JVal) : ℕ :=
  (dumpJString kv.1).length + 1 + (jsonDump kv.2).length

theorem colon_length : (":").length = 1 := rfl

theorem comma_length : (",").length = 1 := rfl

theorem jsonDumpObj_length : ∀ fs : List (String × JVal),
    (jsonDumpObj fs).length = (fs.map fieldLen).sum + (fs.length - 1)
  | [] => by simp [jsonDumpObj]
  | [kv] => by
    simp [jsonDumpObj, fieldLen, string_length_append, colon_length]
  | kv :: kv2 :: rest => by
    have ih := jsonDumpObj_length (kv2 :: rest)
    simp only [jsonDumpObj, string_length_append, ih, List.map_cons, List.sum_cons,
      List.length_cons, fieldLen, colon_length, comma_length]
    omega

theorem insertSortedField_perm (kv : String × JVal) : ∀ fs : List (String × JVal),
    (insertSortedField kv fs).Perm (kv :: fs)
  | [] => List.Perm.refl _
  | kv2 :: rest => by
    unfold insertSortedField
    by_cases h : kv2.1 < kv.1
    · rw [if_pos h]
      exact ((insertSortedField_perm kv rest).cons kv2).trans (List.Perm.swap kv kv2 rest)
    · rw [if_neg h]

theorem sortFields_perm : ∀ fs : List (String × JVal), (sortFields fs).Perm fs
  | [] => List.Perm.refl _
  | kv :: rest =>
    (insertSortedField_perm kv (sortFields rest)).trans ((sortFields_perm rest).cons kv)

mutual
theorem length_jsonDump_sortJVal : ∀ v : JVal,
    (jsonDump (sortJVal v)).length = (jsonDump v).length
  | .jnull => rfl
  | .jint _ => rfl
  | .jnum _ => rfl
  | .jstr _ => rfl
  | .jlist xs => by
    simp only [sortJVal, jsonDump, string_length_append,
      length_jsonDumpList_sortJValList xs]
  | .jobj fs => by
    simp only [sortJVal, jsonDump, string_length_append]
    rw [jsonDumpObj_length, jsonDumpObj_length]
    have hperm := sortFields_perm (sortJValFields fs)
    rw [hperm.length_eq, (hperm.map fieldLen).sum_eq,
      (length_fieldLen_sortJValFields fs).1, (length_fieldLen_sortJValFields fs).2]

theorem length_jsonDumpList_sortJValList : ∀ xs : List JVal,
    (jsonDumpList (sortJValList xs)).length = (jsonDumpList xs).length
  | [] => rfl
  | [x] => by
    simp only [sortJValList, jsonDumpList, length_jsonDump_sortJVal x]
  | x :: y :: rest => by
    have ih := length_jsonDumpList_sortJValList (y :: rest)
    simp only [sortJValList] at ih
    simp only [sortJValList, jsonDumpList, string_length_append,
      length_jsonDump_sortJVal x, ih]

theorem length_fieldLen_sortJValFields : ∀ fs : List (String × JVal),
    ((sortJValFields fs).map fieldLen).sum = (fs.map fieldLen).sum ∧
      (sortJValFields fs).length = fs.length
  | [] => ⟨rfl, rfl⟩
  | kv :: rest => by
    have h := length_fieldLen_sortJValFields rest
    refine ⟨?_, by simp [sortJValFields, h.2]⟩
    simp only [sortJValFields, List.map_cons, List.sum_cons, h.1, fieldLen,
      length_jsonDump_sortJVal kv.2]
end

/-- The character length of the canonical (key-sorted) serialization equals that of
the insertion-order serialization used by `estimate_payload_units`: sorting object
keys permutes fields without changing the total length. -/
theorem canonical_json_length (v : JVal) :
    (canonical_json v).length = (jsonDump v).length :=
  length_jsonDump_sortJVal v

/-- The unit count as the specification words it (§4.5): the ceiling of the BYTE
length of `canonical_json(payload)` over 1000, minimum 1.  Defined only for
comparison with `estimate_payload_units`, which the source computes from the
CHARACTER length of the unsorted compact dump. -/
def specPayloadUnitsBytes (payload : JVal) : ℕ :=
  max 1 (quantizeCeil (((canonical_json payload).utf8ByteSize : ℚ) / 1000)).toNat

theorem string_mk_append (a b : List Char) :
    String.mk a ++ String.mk b = String.mk (a ++ b) := rfl

theorem string_mk_length (a : List Char) : (String.mk a).length = a.length := rfl

theorem payload_single_field_shape (key s : String) :
    jsonDump (.jobj [(key, .jstr s)])
      = "\x7b" ++ (dumpJString key ++ ":" ++ dumpJString s) ++ "\x7d" := by
  simp only [jsonDump, jsonDumpObj]

theorem payload_single_field_length (key s : String)
    (hk : ∀ c ∈ key.data, escapeJsonChar c = String.singleton c)
    (hs : ∀ c ∈ s.data, escapeJsonChar c = String.singleton c) :
    (jsonDump (.jobj [(key, .jstr s)])).length = key.length + s.length + 7 := by
  rw [payload_single_field_shape, dumpJString_plain key hk, dumpJString_plain s hs,
    show ("\x7b" : String) = String.mk ['\x7b'] from rfl,
    show ("\x7d" : String) = String.mk ['\x7d'] from rfl,
    show (":" : String) = String.mk [':'] from rfl]
  simp only [string_mk_append, string_mk_length]
  rw [show key.length = key.data.length from rfl, show s.length = s.data.length from rfl]
  simp only [List.length_append, List.length_cons, List.length_nil]
  omega

theorem payload_single_field_utf8 (key s : String)
    (hk : ∀ c ∈ key.data, escapeJsonChar c = String.singleton c)
    (hs : ∀ c ∈ s.data, escapeJsonChar c = String.singleton c) :
    (jsonDump (.jobj [(key, .jstr s)])).utf8ByteSize
      = String.utf8Len key.data + String.utf8Len s.data + 7 := by
  rw [payload_single_field_shape, dumpJString_plain key hk, dumpJString_plain s hs,
    show ("\x7b" : String) = String.mk ['\x7b'] from rfl,
    show ("\x7d" : String) = String.mk ['\x7d'] from rfl,
    show (":" : String) = String.mk [':'] from rfl]
  simp only [string_mk_append, String.utf8ByteSize_mk]
  simp only [String.utf8Len_append, String.utf8Len_cons, String.utf8Len_nil]
  have hq : ('"').utf8Size = 1 := rfl
  have hb1 : ('\x7b').utf8Size = 1 := rfl
  have hb2 : ('\x7d').utf8Size = 1 := rfl
  have hco : (':').utf8Size = 1 := rfl
  rw [hq, hb1, hb2, hco]
  omega

theorem utf8Len_replicate (n : ℕ) (c : Char) :
    String.utf8Len (List.replicate n c) = n * c.utf8Size := by
  induction n with
  | zero => simp
  | succ n ih => simp [List.replicate, ih]; ring

/-- 249 copies of the four-byte character U+1D11E. -/
def glyphStr : String := String.mk (List.replicate 249 '𝄞')

/-- A payload serializing to 257 characters but 1004 UTF-8 bytes. -/
def bigPayload : JVal := .jobj [("a", .jstr glyphStr)]

theorem glyph_plain : ∀ c ∈ glyphStr.data, escapeJsonChar c = String.singleton c := by
  intro c hc
  have hmem : c ∈ List.replicate 249 '𝄞' := hc
  rw [List.eq_of_mem_replicate hmem]
  decide

theorem bigPayload_chars : (jsonDump bigPayload).length = 257 := by
  have h := payload_single_field_length "a" glyphStr (by decide) glyph_plain
  have h249 : glyphStr.length = 249 := by
    show (List.replicate 249 '𝄞').length = 249
    rw [List.length_replicate]
  rw [show bigPayload = .jobj [("a", .jstr glyphStr)] from rfl, h, h249]
  decide

theorem bigPayload_bytes : (canonical_json bigPayload).utf8ByteSize = 1004 := by
  have hsort : sortJVal bigPayload = bigPayload := by
    simp [bigPayload, sortJVal, sortJValFields, sortFields, insertSortedField]
  rw [canonical_json, hsort]
  have h := payload_single_field_utf8 "a" glyphStr (by decide) glyph_plain
  have h1 : String.utf8Len ("a").data = 1 := rfl
  have h2 : String.utf8Len glyphStr.data = 996 := by
    show String.utf8Len (List.replicate 249 '𝄞') = 996
    rw [utf8Len_replicate]
    norm_num [show ('𝄞').utf8Size = 4 from rfl]
  rw [show bigPayload = .jobj [("a", .jstr glyphStr)] from rfl, h, h1, h2]

/-- C9 (counterexample): the estimated unit count is computed from the CHARACTER
length of the compact serialization, not from the UTF-8 BYTE length of
`canonical_json(payload)`: a payload of 249 four-byte characters is 257 characters
but 1004 bytes, so the code computes 1 unit where the claimed byte formula gives 2;
and the posted pool fee is `(cost × pool_fee_bps / 10000)` quantized to 8 decimals,
not the exact product: at cost 1e-8 and 3 bps the posted fee is 0 while the exact
product is 3e-12. -/
theorem estimate_units_chars_not_bytes :
    estimate_payload_units bigPayload = 1 ∧
    specPayloadUnitsBytes bigPayload = 2 ∧
    quantize8 ((1/100000000 : ℚ) * 3 / 10000) = 0 ∧
    ((1/100000000 : ℚ) * 3 / 10000 ≠ 0) := by
  refine ⟨?_, ?_, ?_, by norm_num⟩
  · rw [estimate_payload_units, bigPayload_chars]
    have ha : quantizeCeil (((257 : ℕ) : ℚ) / 1000) = 1 := by
      rw [quantizeCeil]
      have h1 : ⌈((257 : ℕ) : ℚ) / 1000⌉ ≤ 1 := Int.ceil_le.mpr (by norm_num)
      have h2 : 0 < ⌈((257 : ℕ) : ℚ) / 1000⌉ := Int.lt_ceil.mpr (by norm_num)
      omega
    rw [ha]
    rfl
  · rw [specPayloadUnitsBytes, bigPayload_bytes]
    have ha : quantizeCeil (((1004 : ℕ) : ℚ) / 1000) = 2 := by
      rw [quantizeCeil]
      have h1 : ⌈((1004 : ℕ) : ℚ) / 1000⌉ ≤ 2 := Int.ceil_le.mpr (by norm_num)
      have h2 : 1 < ⌈((1004 : ℕ) : ℚ) / 1000⌉ := Int.lt_ceil.mpr (by norm_num)
      omega
    rw [ha]
    rfl
  · norm_num [quantize8, roundHalfEven]

theorem quantize8_int (n : ℤ) : quantize8 (n : ℚ) = n := by
  unfold quantize8
  rw [show ((n : ℚ) * 100000000) = ((n * 100000000 : ℤ) : ℚ) from by push_cast; ring,
    roundHalfEven_intCast]
  push_cast
  ring

/-- The ledger rows appended by a successful accounting run (shared shape lemma). -/
theorem apply_job_verification_accounting_ledger (db : Db) (aid : ℕ) (now : ℚ)
    (a : Assignment) (r : Result) (w : Worker) (job : Job) (cuid wid : ℕ)
    (rule : PricingRule)
    (h1 : db.getAssignment aid = some a)
    (h2 : db.resultFor aid = some r)
    (h3 : r.verificationStatus = .verified)
    (h4 : a.workerId = some wid)
    (h5 : db.getWorker wid = some w)
    (h6 : db.getJob a.jobId = some job)
    (h7 : job.createdByUserId = some cuid)
    (h8 : a.status ≠ .failed) (h8b : a.status ≠ .canceled)
    (h9 : job.status ≠ .failed) (h9b : job.status ≠ .canceled)
    (h10 : db.ledger.find? (fun e =>
      decide (e.assignmentId = some aid ∧ e.entryType = "job_charge")) = none)
    (h11 : active_pricing_rule db job.jobType = some rule) :
    (apply_job_verification_accounting db aid now).ledger = db.ledger ++
      [⟨(accStep1 db cuid).1, some a.jobId, some a.id, -(accCost job rule),
          "job_charge", now⟩,
       ⟨(accStep2 db cuid).1, some a.jobId, some a.id, accPoolFee db job rule,
          "pool_fee", now⟩,
       ⟨(accStep3 db cuid w).1, some a.jobId, some a.id,
          accCost job rule - accPoolFee db job rule, "worker_reward", now⟩] := by
  have E := apply_job_verification_accounting_eq db aid now a r w job cuid wid rule
    h1 h2 h3 h4 h5 h6 h7 h8 h8b h9 h9b h10 h11
  rw [E, create_ledger_entry_ledger, create_ledger_entry_ledger,
    create_ledger_entry_ledger]
  have L3 : (accStep3 db cuid w).2.ledger = (accStep2 db cuid).2.ledger :=
    get_or_create_account_ledger _ _ _ _
  have L2 : (accStep2 db cuid).2.ledger = (accStep1 db cuid).2.ledger :=
    get_or_create_account_ledger _ _ _ _
  have L1 : (accStep1 db cuid).2.ledger = db.ledger :=
    get_or_create_account_ledger _ _ _ _
  rw [L3, L2, L1]
  simp [List.append_assoc]

/-- 1487 copies of 'a': under key "prompt" this serializes to 1500 characters. -/
def promptStr : String := String.mk (List.replicate 1487 'a')

/-- The 1500-character worked example payload of the unit-estimation rule. -/
def examplePayload : JVal := .jobj [("prompt", .jstr promptStr)]

/-- A job row carrying the 1500-character payload. -/
def exampleJob : Job := ⟨1, some 3, .inference, .running, examplePayload, 0, none⟩

theorem prompt_plain : ∀ c ∈ promptStr.data, escapeJsonChar c = String.singleton c := by
  intro c hc
  have hmem : c ∈ List.replicate 1487 'a' := hc
  rw [List.eq_of_mem_replicate hmem]
  decide

theorem examplePayload_chars : (jsonDump examplePayload).length = 1500 := by
  have h := payload_single_field_length "prompt" promptStr (by decide) prompt_plain
  have hp : promptStr.length = 1487 := by
    show (List.replicate 1487 'a').length = 1487
    rw [List.length_replicate]
  rw [show examplePayload = .jobj [("prompt", .jstr promptStr)] from rfl, h, hp]
  decide

theorem examplePayload_units : estimate_payload_units examplePayload = 2 := by
  rw [estimate_payload_units, examplePayload_chars]
  have ha : quantizeCeil (((1500 : ℕ) : ℚ) / 1000) = 2 := by
    rw [quantizeCeil]
    have hA : ⌈((1500 : ℕ) : ℚ) / 1000⌉ ≤ 2 := Int.ceil_le.mpr (by norm_num)
    have hB : 1 < ⌈((1500 : ℕ) : ℚ) / 1000⌉ := Int.lt_ceil.mpr (by norm_num)
    omega
  rw [ha]
  rfl

theorem exampleJob_cost : accCost exampleJob accRuleRow = 100 := by
  rw [accCost, show exampleJob.payload = examplePayload from rfl, examplePayload_units,
    show accRuleRow.unitCostTokens = (50 : ℚ) from rfl,
    show (((2 : ℕ) : ℚ) * 50) = ((100 : ℤ) : ℚ) from by norm_num, quantize8_int]
  norm_num

theorem exampleJob_fee : accPoolFee accDb exampleJob accRuleRow = 10 := by
  rw [accPoolFee, exampleJob_cost, show accPoolFeeBps accDb = (1000 : ℤ) from rfl,
    show ((100 : ℚ) * ((1000 : ℤ) : ℚ) / 10000) = ((10 : ℤ) : ℚ) from by norm_num,
    quantize8_int]
  norm_num

/-- C9 (amended): for every payload the estimated unit count equals the ceiling of
the CHARACTER length of `canonical_json(payload)` over 1000 with minimum 1 (the
character length of the sorted dump equals that of the insertion-order dump the
code measures, but for non-ASCII payloads it differs from the byte length); when
accounting runs with an active pricing rule the three posted amounts are
−cost, +pool_fee and cost − pool_fee with
cost = quantize8(units × unit_cost_tokens) and
pool_fee = quantize8(cost × pool_fee_bps / 10000) — the fee is quantized to 8
decimals, not the exact product; the worked example — a 1500-character payload
with unit_cost_tokens = 50 and pool_fee_bps = 1000 — yields units = 2, cost = 100,
pool_fee = 10 and worker_reward = 90. -/
theorem payload_units_and_accounting_amounts :
    (∀ p : JVal, estimate_payload_units p
        = max 1 (quantizeCeil (((canonical_json p).length : ℚ) / 1000)).toNat) ∧
    (∀ (db : Db) (aid : ℕ) (now : ℚ) (a : Assignment) (r : Result) (w : Worker)
        (job : Job) (cuid wid : ℕ) (rule : PricingRule),
      db.getAssignment aid = some a →
      db.resultFor aid = some r →
      r.verificationStatus = .verified →
      a.workerId = some wid →
      db.getWorker wid = some w →
      db.getJob a.jobId = some job →
      job.createdByUserId = some cuid →
      a.status ≠ .failed → a.status ≠ .canceled →
      job.status ≠ .failed → job.status ≠ .canceled →
      db.ledger.find? (fun e =>
        decide (e.assignmentId = some aid ∧ e.entryType = "job_charge")) = none →
      active_pricing_rule db job.jobType = some rule →
      accCost job rule
          = quantize8 ((estimate_payload_units job.payload : ℚ) * rule.unitCostTokens) ∧
      accPoolFee db job rule
          = quantize8 (accCost job rule * (accPoolFeeBps db : ℚ) / 10000) ∧
      (apply_job_verification_accounting db aid now).ledger = db.ledger ++
        [⟨(accStep1 db cuid).1, some a.jobId, some a.id, -(accCost job rule),
            "job_charge", now⟩,
         ⟨(accStep2 db cuid).1, some a.jobId, some a.id, accPoolFee db job rule,
            "pool_fee", now⟩,
         ⟨(accStep3 db cuid w).1, some a.jobId, some a.id,
            accCost job rule - accPoolFee db job rule, "worker_reward", now⟩]) ∧
    (estimate_payload_units examplePayload = 2 ∧
      accCost exampleJob accRuleRow = 100 ∧
      accPoolFee accDb exampleJob accRuleRow = 10 ∧
      accCost exampleJob accRuleRow - accPoolFee accDb exampleJob accRuleRow = 90) := by
  refine ⟨?_, ?_, examplePayload_units, exampleJob_cost, exampleJob_fee, ?_⟩
  · intro p
    rw [estimate_payload_units, canonical_json_length]
  · intro db aid now a r w job cuid wid rule h1 h2 h3 h4 h5 h6 h7 h8 h8b h9 h9b h10 h11
    exact ⟨rfl, rfl,
      apply_job_verification_accounting_ledger db aid now a r w job cuid wid rule
        h1 h2 h3 h4 h5 h6 h7 h8 h8b h9 h9b h10 h11⟩
  · rw [exampleJob_cost, exampleJob_fee]
    norm_num

theorem payload_units_and_accounting_amounts_witness :
    estimate_payload_units examplePayload = 2 ∧
    (apply_job_verification_accounting accDb 1 5).ledger = accDb.ledger ++
      [⟨(accStep1 accDb 3).1, some accARow.jobId, some accARow.id,
          -(accCost accJobRow accRuleRow), "job_charge", 5⟩,
       ⟨(accStep2 accDb 3).1, some accARow.jobId, some accARow.id,
          accPoolFee accDb accJobRow accRuleRow, "pool_fee", 5⟩,
       ⟨(accStep3 accDb 3 accWRow).1, some accARow.jobId, some accARow.id,
          accCost accJobRow accRuleRow - accPoolFee accDb accJobRow accRuleRow,
          "worker_reward", 5⟩] :=
  ⟨payload_units_and_accounting_amounts.2.2.1,
    (payload_units_and_accounting_amounts.2.1 accDb 1 5 accARow accRRow accWRow
      accJobRow 3 1 accRuleRow rfl rfl rfl rfl rfl rfl rfl (by decide) (by decide)
      (by decide) (by decide) rfl rfl).2.2⟩

/-! ## C2: replay / already-submitted handling of `submit_job` -/

/-- C2 (counterexample): a submit call targeting an assignment that already has a
Result row does not always return 409 — the nonce guard runs first, so a call with
a mismatched nonce on an already-submitted assignment returns 400 (state
unchanged), not 409. -/
theorem submit_existing_result_wrong_nonce_400 :
    (accDb.resultFor 1).isSome = true ∧
    submit_job accDb 2 ⟨1, 1, "w", "s", none, none, none, none⟩ true
      (fun _ _ _ => .ok true) "x" 100 = (.error 400, accDb) :=
  ⟨rfl, rfl⟩

/-- C2 (amended): whenever the guards ahead of the duplicate check pass — the
worker is owned by the caller, the rate limiter allows the call, the worker has a
non-empty public key, the signature verifies, the assignment is found for that
worker, and the nonce matches — and the assignment already has a Result row, the
call returns HTTP 409 and the database is returned unchanged: the existing Result,
the Assignment, all ledger entries and the worker rows are exactly as before.  A
replay of a previously accepted body in particular satisfies the nonce and
signature guards (the accepted call inserts the Result row and never changes the
assignment's nonce), so it lands on this branch. -/
theorem submit_replay_409
    (db : Db) (uid : ℕ) (req : JobSubmitRequest)
    (verifySig : String → String → SignedSubmission → Except Unit Bool)
    (auditHex : String) (now : ℚ) (worker : Worker) (assignment : Assignment)
    (pk : String)
    (hw : get_owned_worker db req.workerId uid = some worker)
    (hpk : worker.publicKey = some pk)
    (hpkne : pk.isEmpty = false)
    (hsig : verifySig pk req.signature ⟨req.assignmentId, req.nonce, req.outputHash⟩
      = .ok true)
    (ha : db.assignments.find? (fun a =>
      decide (a.id = req.assignmentId ∧ a.workerId = some worker.id)) = some assignment)
    (hn : assignment.nonce = req.nonce)
    (hr : (db.resultFor assignment.id).isSome = true) :
    submit_job db uid req true verifySig auditHex now = (.error 409, db) := by
  simp only [submit_job, hw, hpk, hsig, ha, hpkne, Bool.not_true, Bool.false_eq_true,
    if_false, ite_false]
  rw [if_neg (by simp [hn]), if_pos hr]

theorem submit_replay_409_witness :
    submit_job accDb 2 ⟨1, 1, "n", "s", none, none, none, none⟩ true
      (fun _ _ _ => .ok true) "x" 100 = (.error 409, accDb) :=
  submit_replay_409 accDb 2 ⟨1, 1, "n", "s", none, none, none, none⟩
    (fun _ _ _ => .ok true) "x" 100 accWRow accARow "pk"
    rfl rfl (by decide) rfl rfl rfl rfl

/-! ## C4: canonical-hash verification -/

theorem jget_jset_same (fs : List (String × JVal)) (k : String) (v : JVal) :
    jgetField (jsetField fs k v) k = some v := by
  unfold jgetField jsetField
  by_cases hs : (fs.find? (fun kv => kv.1 = k)).isSome
  · rw [if_pos hs]
    induction fs with
    | nil => simp at hs
    | cons kv fs ih =>
      by_cases h : kv.1 = k
      · rw [List.map_cons, if_pos h, List.find?_cons_of_pos _ (by simp)]
        rfl
      · rw [List.map_cons, if_neg h, List.find?_cons_of_neg _ (by simp [h])]
        apply ih
        rwa [List.find?_cons_of_neg _ (by simp [h])] at hs
  · rw [if_neg hs]
    induction fs with
    | nil => simp
    | cons kv fs ih =>
      have hk : ¬(kv.1 = k) := by
        intro hkk
        exact hs (by rw [List.find?_cons_of_pos _ (by simp [hkk])]; rfl)
      rw [List.cons_append, List.find?_cons_of_neg _ (by simp [hk])]
      apply ih
      rwa [List.find?_cons_of_neg _ (by simp [hk])] at hs

theorem jget_jset_other (fs : List (String × JVal)) (k k' : String) (v : JVal)
    (hne : k' ≠ k) :
    jgetField (jsetField fs k v) k' = jgetField fs k' := by
  unfold jgetField jsetField
  by_cases hs : (fs.find? (fun kv => kv.1 = k)).isSome
  · rw [if_pos hs]
    rw [find?_map_of_pred_invariant fs _ _ (fun kv => ?_)]
    · cases hfind : fs.find? (fun kv => kv.1 = k') with
      | none => rfl
      | some kv0 =>
        have hk0 : kv0.1 = k' := by simpa using List.find?_some hfind
        simp [if_neg (show ¬(kv0.1 = k) from by rw [hk0]; exact hne)]
    · by_cases h : kv.1 = k
      · rw [if_pos h]
        simp [h, hne.symm]
      · rw [if_neg h]
  · rw [if_neg hs]
    clear hs
    induction fs with
    | nil => simp [Ne.symm hne]
    | cons kv fs ih =>
      by_cases h : kv.1 = k'
      · rw [List.cons_append, List.find?_cons_of_pos _ (by simp [h]),
          List.find?_cons_of_pos _ (by simp [h])]
      · rw [List.cons_append, List.find?_cons_of_neg _ (by simp [h]),
          List.find?_cons_of_neg _ (by simp [h])]
        exact ih

theorem workerRejectedNextFrom_jset_rep (s0 : List (String × JVal)) (v : JVal) :
    workerRejectedNextFrom (jsetField s0 "reputation" v) = workerRejectedNextFrom s0 := by
  unfold workerRejectedNextFrom
  rw [jget_jset_other _ _ _ _ (by decide)]

/-- `_adjust_worker_reputation` on a non-rejection: clamped reputation write only. -/
theorem adjust_false_spec (w : Worker) (delta : ℚ) (thr : ℤ) :
    adjust_worker_reputation w delta false thr
      = { w with specsJson := some (jsetField (w.specsJson.getD []) "reputation"
          (.jnum (min 1 (max 0 (workerReputation w + delta))))) } := rfl

/-- `_adjust_worker_reputation` on a rejection: clamped reputation write, counter
bump, and the ban once the counter reaches the threshold. -/
theorem adjust_true_spec (w : Worker) (delta : ℚ) (thr : ℤ) :
    adjust_worker_reputation w delta true thr
      = (if thr ≤ workerRejectedNext w
         then { w with
            specsJson := some (jsetField (jsetField (w.specsJson.getD []) "reputation"
              (.jnum (min 1 (max 0 (workerReputation w + delta)))))
              "rejected_submissions" (.jint (workerRejectedNext w))),
            status := .banned }
         else { w with
            specsJson := some (jsetField (jsetField (w.specsJson.getD []) "reputation"
              (.jnum (min 1 (max 0 (workerReputation w + delta)))))
              "rejected_submissions" (.jint (workerRejectedNext w))) }) := by
  simp only [adjust_worker_reputation, Bool.not_true, Bool.false_eq_true, if_false,
    ite_false, workerRejectedNextFrom_jset_rep]
  rfl

theorem resultFor_updateResult_self (db : Db) (aid : ℕ) (f : Result → Result)
    (hf : ∀ res, (f res).assignmentId = res.assignmentId)
    (rr : Result) (hrr : db.resultFor aid = some rr) :
    (db.updateResult aid f).resultFor aid = some (f rr) := by
  unfold Db.resultFor Db.updateResult at *
  rw [show ({ db with results := (db.results.map
      (fun r => if r.assignmentId = aid then f r else r)) } : Db).results
    = db.results.map (fun r => if r.assignmentId = aid then f r else r) from rfl]
  rw [find?_map_of_pred_invariant db.results _ _ (fun res => ?_), hrr]
  · have hid : rr.assignmentId = aid := by simpa using List.find?_some hrr
    simp [hid]
  · by_cases h : res.assignmentId = aid
    · rw [if_pos h]
      simp [hf, h]
    · rw [if_neg h]

theorem getWorker_updateWorker_self (db : Db) (wid : ℕ) (f : Worker → Worker)
    (hf : ∀ w, (f w).id = w.id)
    (w : Worker) (hw : db.getWorker wid = some w) :
    (db.updateWorker wid f).getWorker wid = some (f w) := by
  unfold Db.getWorker Db.updateWorker at *
  rw [show ({ db with workers := (db.workers.map
      (fun x => if x.id = wid then f x else x)) } : Db).workers
    = db.workers.map (fun x => if x.id = wid then f x else x) from rfl]
  rw [find?_map_of_pred_invariant db.workers _ _ (fun x => ?_), hw]
  · have hid : w.id = wid := by simpa using List.find?_some hw
    simp [hid]
  · by_cases h : x.id = wid
    · rw [if_pos h]
      simp [hf, h]
    · rw [if_neg h]

theorem getAssignment_updateAssignment_self (db : Db) (aid : ℕ)
    (f : Assignment → Assignment) (hf : ∀ a, (f a).id = a.id)
    (a : Assignment) (ha : db.getAssignment aid = some a) :
    (db.updateAssignment aid f).getAssignment aid = some (f a) := by
  unfold Db.getAssignment Db.updateAssignment at *
  rw [show ({ db with assignments := (db.assignments.map
      (fun x => if x.id = aid then f x else x)) } : Db).assignments
    = db.assignments.map (fun x => if x.id = aid then f x else x) from rfl]
  rw [find?_map_of_pred_invariant db.assignments _ _ (fun x => ?_), ha]
  · have hid : a.id = aid := by simpa using List.find?_some ha
    simp [hid]
  · by_cases h : x.id = aid
    · rw [if_pos h]
      simp [hf, h]
    · rw [if_neg h]

/-- The job, assignments and results of the S4 fraud-ban scenario: one canonical
job (expected hash "good"), one worker with `fraud_ban_threshold = 2`, two wrong
submissions. -/
def fraudJob : Job := ⟨1, some 3, .inference, .running, .jobj [], 0, some "good"⟩

/-- First wrong-hash assignment of the S4 scenario. -/
def fraudA1 : Assignment := ⟨1, 1, some 1, .started, 0, none, "n1"⟩

/-- Second wrong-hash assignment of the S4 scenario. -/
def fraudA2 : Assignment := ⟨2, 1, some 1, .started, 0, none, "n2"⟩

/-- First wrong-hash result of the S4 scenario. -/
def fraudR1 : Result := ⟨1, none, none, none, some "bad1", none, .pending, none⟩

/-- Second wrong-hash result of the S4 scenario. -/
def fraudR2 : Result := ⟨2, none, none, none, some "bad2", none, .pending, none⟩

/-- The S4 scenario state. -/
def fraudDb : Db :=
  { workers := [⟨1, 2, .online, some [], none, none⟩]
    workerSettingsRows := []
    heartbeats := []
    jobs := [fraudJob]
    assignments := [fraudA1, fraudA2]
    results := [fraudR1, fraudR2]
    accounts := []
    ledger := []
    poolSettings := some ⟨0, 0, 2, 985/1000, 1000⟩
    pricingRules := []
    nextAssignmentId := 3
    nextAccountId := 0 }

set_option maxHeartbeats 1000000 in
/-- C4: a submission on a job with a non-null canonical hash is processed on the
canonical path; on a hash match the result becomes `verified` with score 1.0 and
the worker's reputation rises by 0.01 capped at 1.0 (status untouched); on a
mismatch the result becomes `rejected` with score 0.0, the assignment fails, the
reputation drops by 0.05 floored at 0.0, `rejected_submissions` is incremented,
and the worker is banned exactly when the counter reaches
`fraud_ban_threshold`; in the S4 instance (two wrong hashes, threshold 2) both
results end `rejected` and the worker ends `banned`. -/
theorem canonical_verification_spec
    (db : Db) (a : Assignment) (r : Result) (auditHex : String) (now : ℚ)
    (expected : String) (wid : ℕ) (w : Worker) (rr : Result)
    (hexp : (db.getJob a.jobId).bind (fun j => j.canonicalExpectedHash) = some expected)
    (hwid : a.workerId = some wid)
    (hw : db.getWorker wid = some w)
    (hrr : db.resultFor r.assignmentId = some rr)
    (ha : db.getAssignment a.id = some a) :
    process_submission_verification db a r auditHex now
      = process_canonical_job db (load_audit_policy db) a r ∧
    (r.outputHash = some expected →
      (process_canonical_job db (load_audit_policy db) a r).2 = .verified ∧
      (process_canonical_job db (load_audit_policy db) a r).1.resultFor r.assignmentId
        = some { rr with verificationStatus := .verified, verificationScore := some 1 } ∧
      (∃ w', (process_canonical_job db (load_audit_policy db) a r).1.getWorker wid
          = some w' ∧
        jgetField (w'.specsJson.getD []) "reputation"
          = some (.jnum (min 1 (max 0 (workerReputation w + 1/100)))) ∧
        w'.status = w.status)) ∧
    (r.outputHash ≠ some expected →
      (process_canonical_job db (load_audit_policy db) a r).2 = .rejected ∧
      (process_canonical_job db (load_audit_policy db) a r).1.resultFor r.assignmentId
        = some { rr with verificationStatus := .rejected, verificationScore := some 0 } ∧
      (process_canonical_job db (load_audit_policy db) a r).1.getAssignment a.id
        = some { a with status := .failed } ∧
      (∃ w', (process_canonical_job db (load_audit_policy db) a r).1.getWorker wid
          = some w' ∧
        jgetField (w'.specsJson.getD []) "reputation"
          = some (.jnum (min 1 (max 0 (workerReputation w - 5/100)))) ∧
        jgetField (w'.specsJson.getD []) "rejected_submissions"
          = some (.jint (workerRejectedNext w)) ∧
        w'.status = (if (load_audit_policy db).fraudBanThreshold ≤ workerRejectedNext w
          then .banned else w.status))) ∧
    (((process_canonical_job
          (process_canonical_job fraudDb (load_audit_policy fraudDb) fraudA1 fraudR1).1
          (load_audit_policy fraudDb) fraudA2 fraudR2).1.resultFor 1).map
        (fun x => x.verificationStatus) = some .rejected ∧
     ((process_canonical_job
          (process_canonical_job fraudDb (load_audit_policy fraudDb) fraudA1 fraudR1).1
          (load_audit_policy fraudDb) fraudA2 fraudR2).1.resultFor 2).map
        (fun x => x.verificationStatus) = some .rejected ∧
     ((process_canonical_job
          (process_canonical_job fraudDb (load_audit_policy fraudDb) fraudA1 fraudR1).1
          (load_audit_policy fraudDb) fraudA2 fraudR2).1.getWorker 1).map
        (fun x => x.status) = some .banned) := by
  have hd : workerReputation w + REJECTED_REPUTATION_DELTA = workerReputation w - 5/100 := by
    unfold REJECTED_REPUTATION_DELTA
    ring
  refine ⟨?_, ?_, ?_, rfl, rfl, rfl⟩
  · simp only [process_submission_verification, hexp, Option.isSome_some]
    rw [if_pos trivial]
  · intro hmatch
    simp only [process_canonical_job, hexp]
    rw [if_pos hmatch]
    simp only [hwid]
    refine ⟨trivial, ?_, ?_⟩
    · exact resultFor_updateResult_self db r.assignmentId
        (fun res => { res with verificationStatus := .verified, verificationScore := some 1 })
        (fun res => rfl) rr hrr
    · refine ⟨adjust_worker_reputation w VERIFIED_REPUTATION_DELTA false
        (load_audit_policy db).fraudBanThreshold, ?_, ?_, rfl⟩
      · exact getWorker_updateWorker_self
          (db.updateResult r.assignmentId (fun res =>
            { res with verificationStatus := .verified, verificationScore := some 1 }))
          wid
          (fun x => adjust_worker_reputation x VERIFIED_REPUTATION_DELTA false
            (load_audit_policy db).fraudBanThreshold)
          (fun x => rfl) w hw
      · exact jget_jset_same _ _ _
  · intro hmiss
    simp only [process_canonical_job, hexp]
    rw [if_neg hmiss]
    simp only [hwid]
    refine ⟨trivial, ?_, ?_, ?_⟩
    · exact resultFor_updateResult_self db r.assignmentId
        (fun res => { res with verificationStatus := .rejected, verificationScore := some 0 })
        (fun res => rfl) rr hrr
    · have h3 := getAssignment_updateAssignment_self
        (db.updateResult r.assignmentId (fun res =>
          { res with verificationStatus := .rejected, verificationScore := some 0 }))
        a.id (fun x => { x with status := .failed }) (fun x => rfl) a ha
      simp only [hwid] at h3
      exact h3
    · have hspecs : (adjust_worker_reputation w REJECTED_REPUTATION_DELTA true
          (load_audit_policy db).fraudBanThreshold).specsJson
          = some (jsetField (jsetField (w.specsJson.getD []) "reputation"
              (.jnum (min 1 (max 0 (workerReputation w + REJECTED_REPUTATION_DELTA)))))
              "rejected_submissions" (.jint (workerRejectedNext w))) := by
        rw [adjust_true_spec]
        split <;> rfl
      refine ⟨adjust_worker_reputation w REJECTED_REPUTATION_DELTA true
        (load_audit_policy db).fraudBanThreshold, ?_, ?_, ?_, ?_⟩
      · exact getWorker_updateWorker_self
          ((db.updateResult r.assignmentId (fun res =>
            { res with verificationStatus := .rejected, verificationScore := some 0 })).updateAssignment
            a.id (fun x => { x with status := .failed }))
          wid
          (fun x => adjust_worker_reputation x REJECTED_REPUTATION_DELTA true
            (load_audit_policy db).fraudBanThreshold)
          (fun x => by
            show (adjust_worker_reputation x REJECTED_REPUTATION_DELTA true
              (load_audit_policy db).fraudBanThreshold).id = x.id
            rw [adjust_true_spec]
            split <;> rfl) w hw
      · rw [hspecs]
        simp only [Option.getD_some]
        rw [jget_jset_other _ _ _ _ (by decide), jget_jset_same, hd]
      · rw [hspecs]
        simp only [Option.getD_some]
        exact jget_jset_same _ _ _
      · by_cases hc : (load_audit_policy db).fraudBanThreshold ≤ workerRejectedNext w
        · rw [adjust_true_spec, if_pos hc, if_pos hc]
        · rw [adjust_true_spec, if_neg hc, if_neg hc]

theorem canonical_verification_spec_witness :
    process_submission_verification fraudDb fraudA1 fraudR1 "x" 7
      = process_canonical_job fraudDb (load_audit_policy fraudDb) fraudA1 fraudR1 ∧
    (process_canonical_job fraudDb (load_audit_policy fraudDb) fraudA1 fraudR1).2
      = .rejected :=
  have h := canonical_verification_spec fraudDb fraudA1 fraudR1 "x" 7 "good" 1
    ⟨1, 2, .online, some [], none, none⟩ fraudR1 rfl rfl rfl rfl rfl
  ⟨h.1, (h.2.2.1 (by decide)).1⟩

/-! ## C5: cross-verification -/

theorem resultFor_updateWorker (db : Db) (wid : ℕ) (f : Worker → Worker) (aid : ℕ) :
    (db.updateWorker wid f).resultFor aid = db.resultFor aid := rfl

theorem assignments_updateResult (db : Db) (aid : ℕ) (f : Result → Result) :
    (db.updateResult aid f).assignments = db.assignments := rfl

theorem nextAssignmentId_updateResult (db : Db) (aid : ℕ) (f : Result → Result) :
    (db.updateResult aid f).nextAssignmentId = db.nextAssignmentId := rfl

theorem resultFor_updateResult_other (db : Db) (aid aid' : ℕ) (f : Result → Result)
    (hf : ∀ res, (f res).assignmentId = res.assignmentId) (hne : aid' ≠ aid) :
    (db.updateResult aid f).resultFor aid' = db.resultFor aid' := by
  unfold Db.resultFor Db.updateResult
  rw [show ({ db with results := (db.results.map
      (fun r => if r.assignmentId = aid then f r else r)) } : Db).results
    = db.results.map (fun r => if r.assignmentId = aid then f r else r) from rfl]
  rw [find?_map_of_pred_invariant db.results _ _ (fun res => ?_)]
  · cases hfind : db.results.find? (fun r => decide (r.assignmentId = aid')) with
    | none => rfl
    | some x =>
      have hx : x.assignmentId = aid' := by simpa using List.find?_some hfind
      simp [hx, hne]
  · by_cases h : res.assignmentId = aid
    · rw [if_pos h]
      simp [hf]
    · rw [if_neg h]

theorem getWorker_updateWorker_other (db : Db) (wid wid' : ℕ) (f : Worker → Worker)
    (hf : ∀ x, (f x).id = x.id) (hne : wid' ≠ wid) :
    (db.updateWorker wid f).getWorker wid' = db.getWorker wid' := by
  unfold Db.getWorker Db.updateWorker
  rw [show ({ db with workers := (db.workers.map
      (fun x => if x.id = wid then f x else x)) } : Db).workers
    = db.workers.map (fun x => if x.id = wid then f x else x) from rfl]
  rw [find?_map_of_pred_invariant db.workers _ _ (fun x => ?_)]
  · cases hfind : db.workers.find? (fun x => decide (x.id = wid')) with
    | none => rfl
    | some x =>
      have hx : x.id = wid' := by simpa using List.find?_some hfind
      simp [hx, hne]
  · by_cases h : x.id = wid
    · rw [if_pos h]
      simp [hf]
    · rw [if_neg h]

theorem resultFor_ensure_third (db : Db) (a : Assignment) (hex : String) (now : ℚ)
    (aid : ℕ) :
    (ensure_third_assignment db a hex now).resultFor aid = db.resultFor aid := by
  unfold ensure_third_assignment Db.resultFor
  dsimp only
  split <;> rfl

/-- A defined cosine similarity forces two equal-length non-empty numeric
vectors: the undefined cases of the cross check are exactly the non-list, empty,
length-mismatched or non-numeric embeddings. -/
theorem cosine_defined_shape (e1 e2 : JVal) (s : ℝ)
    (h : cosine_similarity e1 e2 = some s) :
    ∃ xs ys v1 v2, e1 = .jlist xs ∧ e2 = .jlist ys ∧ xs.isEmpty = false ∧
      xs.length = ys.length ∧ xs.mapM safeFloat = some v1 ∧ ys.mapM safeFloat = some v2 := by
  cases e1 with
  | jlist xs =>
    cases e2 with
    | jlist ys =>
      simp only [cosine_similarity] at h
      by_cases hc : (xs.isEmpty || xs.length != ys.length) = true
      · rw [if_pos hc] at h
        cases h
      · rw [if_neg hc] at h
        simp only [Bool.or_eq_true, not_or, Bool.not_eq_true] at hc
        obtain ⟨hemp, hlen⟩ := hc
        cases hm1 : List.mapM safeFloat xs with
        | none =>
          rw [hm1] at h
          cases h
        | some v1 =>
          rw [hm1] at h
          cases hm2 : List.mapM safeFloat ys with
          | none =>
            rw [hm2] at h
            cases h
          | some v2 =>
            refine ⟨xs, ys, v1, v2, rfl, rfl, hemp, ?_, hm1, hm2⟩
            simpa using hlen
    | jnull => simp [cosine_similarity] at h
    | jint n => simp [cosine_similarity] at h
    | jnum q => simp [cosine_similarity] at h
    | jstr t => simp [cosine_similarity] at h
    | jobj fs => simp [cosine_similarity] at h
  | jnull => cases e2 <;> simp [cosine_similarity] at h
  | jint n => cases e2 <;> simp [cosine_similarity] at h
  | jnum q => cases e2 <;> simp [cosine_similarity] at h
  | jstr t => cases e2 <;> simp [cosine_similarity] at h
  | jobj fs => cases e2 <;> simp [cosine_similarity] at h

set_option maxHeartbeats 1000000 in
/-- C5: on the cross-verification path (no canonical hash, a peer result present),
a defined similarity at or above the threshold marks both results `verified` with
`verification_score = similarity` and bumps both workers' reputations by 0.01
(capped at 1); a similarity below the threshold, or an undefined one (non-list,
empty, length-mismatched or non-numeric embeddings — exactly the inputs on which
`cosine_similarity` is `None`), lands on the disputed tail, which marks both
results `disputed` and, when the job has fewer than 3 assignments, inserts a new
assignment with `worker_id` null, status `assigned` and a fresh
`audit-third-`-prefixed nonce. -/
theorem cross_verification_spec
    (db : Db) (a : Assignment) (r : Result) (auditHex : String) (now : ℚ)
    (peer : Assignment) (peerResult rr : Result) (wid pwid : ℕ) (w pw : Worker)
    (hexp : (db.getJob a.jobId).bind (fun j => j.canonicalExpectedHash) = none)
    (hpeer : firstRowBy assignmentIdLt (db.assignments.filter (fun x =>
      decide (x.jobId = a.jobId ∧ x.id ≠ a.id) && (db.resultFor x.id).isSome)) = some peer)
    (hpr : db.resultFor peer.id = some peerResult)
    (hrr : db.resultFor r.assignmentId = some rr)
    (hner : peer.id ≠ r.assignmentId)
    (hwid : a.workerId = some wid)
    (hpwid : peer.workerId = some pwid)
    (hw : db.getWorker wid = some w)
    (hpw : db.getWorker pwid = some pw)
    (hne : pwid ≠ wid) :
    (∀ sim : ℝ, cosine_similarity (extract_embedding peerResult.output)
        (extract_embedding r.output) = some sim →
      ((load_audit_policy db).embedSimilarityThreshold : ℝ) ≤ sim →
      (process_submission_verification db a r auditHex now).2 = .verified ∧
      (process_submission_verification db a r auditHex now).1.resultFor r.assignmentId
        = some { rr with verificationStatus := .verified, verificationScore := some sim } ∧
      (process_submission_verification db a r auditHex now).1.resultFor peer.id
        = some { peerResult with
            verificationStatus := .verified, verificationScore := some sim } ∧
      (∃ w', (process_submission_verification db a r auditHex now).1.getWorker wid
          = some w' ∧
        jgetField (w'.specsJson.getD []) "reputation"
          = some (.jnum (min 1 (max 0 (workerReputation w + 1/100)))) ∧
        w'.status = w.status) ∧
      (∃ pw', (process_submission_verification db a r auditHex now).1.getWorker pwid
          = some pw' ∧
        jgetField (pw'.specsJson.getD []) "reputation"
          = some (.jnum (min 1 (max 0 (workerReputation pw + 1/100)))) ∧
        pw'.status = pw.status)) ∧
    (cosine_similarity (extract_embedding peerResult.output)
        (extract_embedding r.output) = none →
      process_submission_verification db a r auditHex now
        = cross_disputed db a r peer.id auditHex now) ∧
    (∀ sim : ℝ, cosine_similarity (extract_embedding peerResult.output)
        (extract_embedding r.output) = some sim →
      sim < ((load_audit_policy db).embedSimilarityThreshold : ℝ) →
      process_submission_verification db a r auditHex now
        = cross_disputed db a r peer.id auditHex now) ∧
    ((cross_disputed db a r peer.id auditHex now).2 = .disputed ∧
     (cross_disputed db a r peer.id auditHex now).1.resultFor r.assignmentId
       = some { rr with verificationStatus := .disputed } ∧
     (cross_disputed db a r peer.id auditHex now).1.resultFor peer.id
       = some { peerResult with verificationStatus := .disputed } ∧
     ((db.assignments.filter (fun x => decide (x.jobId = a.jobId))).length < 3 →
       (cross_disputed db a r peer.id auditHex now).1.assignments = db.assignments
         ++ [⟨db.nextAssignmentId, a.jobId, none, .assigned, now, none,
              "audit-third-" ++ auditHex⟩])) ∧
    (∀ e1 e2 : JVal, ∀ s : ℝ, cosine_similarity e1 e2 = some s →
      ∃ xs ys v1 v2, e1 = .jlist xs ∧ e2 = .jlist ys ∧ xs.isEmpty = false ∧
        xs.length = ys.length ∧ xs.mapM safeFloat = some v1 ∧ ys.mapM safeFloat = some v2) := by
  refine ⟨?_, ?_, ?_, ⟨rfl, ?_, ?_, ?_⟩, fun e1 e2 s h => cosine_defined_shape e1 e2 s h⟩
  · intro sim hsim hge
    simp only [process_submission_verification, hexp, Option.isSome_none,
      Bool.false_eq_true, if_false, ite_false, hpeer, hpr, hsim, hwid, hpwid]
    rw [if_pos hge]
    refine ⟨rfl, ?_, ?_, ?_, ?_⟩
    · rw [resultFor_updateWorker, resultFor_updateWorker]
      exact (resultFor_updateResult_other _ peer.id r.assignmentId
          (fun res => { res with verificationStatus := .verified, verificationScore := some sim })
          (fun res => rfl) (Ne.symm hner)).trans
        (resultFor_updateResult_self db r.assignmentId
          (fun res => { res with verificationStatus := .verified, verificationScore := some sim })
          (fun res => rfl) rr hrr)
    · rw [resultFor_updateWorker, resultFor_updateWorker]
      exact resultFor_updateResult_self _ peer.id
        (fun res => { res with verificationStatus := .verified, verificationScore := some sim })
        (fun res => rfl) peerResult
        ((resultFor_updateResult_other db r.assignmentId peer.id
          (fun res => { res with verificationStatus := .verified, verificationScore := some sim })
          (fun res => rfl) hner).trans hpr)
    · refine ⟨adjust_worker_reputation w VERIFIED_REPUTATION_DELTA false
        (load_audit_policy db).fraudBanThreshold, ?_, ?_, rfl⟩
      · exact (getWorker_updateWorker_other _ pwid wid
          (fun x => adjust_worker_reputation x VERIFIED_REPUTATION_DELTA false
            (load_audit_policy db).fraudBanThreshold) (fun x => rfl)
          (Ne.symm hne)).trans
          (getWorker_updateWorker_self _ wid
            (fun x => adjust_worker_reputation x VERIFIED_REPUTATION_DELTA false
              (load_audit_policy db).fraudBanThreshold) (fun x => rfl) w hw)
      · exact jget_jset_same _ _ _
    · refine ⟨adjust_worker_reputation pw VERIFIED_REPUTATION_DELTA false
        (load_audit_policy db).fraudBanThreshold, ?_, ?_, rfl⟩
      · exact getWorker_updateWorker_self _ pwid
          (fun x => adjust_worker_reputation x VERIFIED_REPUTATION_DELTA false
            (load_audit_policy db).fraudBanThreshold) (fun x => rfl) pw
          ((getWorker_updateWorker_other _ wid pwid
            (fun x => adjust_worker_reputation x VERIFIED_REPUTATION_DELTA false
              (load_audit_policy db).fraudBanThreshold) (fun x => rfl) hne).trans hpw)
      · exact jget_jset_same _ _ _
  · intro hnone
    simp only [process_submission_verification, hexp, Option.isSome_none,
      Bool.false_eq_true, if_false, ite_false, hpeer, hpr, hnone]
  · intro sim hsim hlt
    simp only [process_submission_verification, hexp, Option.isSome_none,
      Bool.false_eq_true, if_false, ite_false, hpeer, hpr, hsim]
    rw [if_neg (not_le.mpr hlt)]
  · simp only [cross_disputed]
    rw [resultFor_ensure_third]
    exact (resultFor_updateResult_other _ peer.id r.assignmentId
        (fun res => { res with verificationStatus := .disputed })
        (fun res => rfl) (Ne.symm hner)).trans
      (resultFor_updateResult_self db r.assignmentId
        (fun res => { res with verificationStatus := .disputed })
        (fun res => rfl) rr hrr)
  · simp only [cross_disputed]
    rw [resultFor_ensure_third]
    exact resultFor_updateResult_self _ peer.id
      (fun res => { res with verificationStatus := .disputed })
      (fun res => rfl) peerResult
      ((resultFor_updateResult_other db r.assignmentId peer.id
        (fun res => { res with verificationStatus := .disputed })
        (fun res => rfl) hner).trans hpr)
  · intro hcount
    simp only [cross_disputed, ensure_third_assignment, assignments_updateResult,
      nextAssignmentId_updateResult]
    rw [if_neg (not_le.mpr hcount)]

/-- The cross-verification scenario: one job without a canonical hash, two
assignments with submitted embeddings, two workers. -/
def crossJob : Job := ⟨1, some 3, .inference, .running, .jobj [], 0, none⟩

/-- First (peer) assignment of the cross-verification scenario. -/
def crossA1 : Assignment := ⟨1, 1, some 1, .started, 0, none, "n1"⟩

/-- Second (submitting) assignment of the cross-verification scenario. -/
def crossA2 : Assignment := ⟨2, 1, some 2, .started, 0, none, "n2"⟩

/-- The peer result with embedding [1, 0]. -/
def crossR1 : Result :=
  ⟨1, some (.jobj [("embedding", .jlist [.jint 1, .jint 0])]), none, none, none, none,
    .pending, none⟩

/-- The submitted result with embedding [0, 1]. -/
def crossR2 : Result :=
  ⟨2, some (.jobj [("embedding", .jlist [.jint 0, .jint 1])]), none, none, none, none,
    .pending, none⟩

/-- Worker bound to the peer assignment. -/
def crossW1 : Worker := ⟨1, 2, .online, some [], none, none⟩

/-- Worker bound to the submitting assignment. -/
def crossW2 : Worker := ⟨2, 2, .online, some [], none, none⟩

/-- The cross-verification scenario state. -/
def crossDb : Db :=
  { workers := [crossW1, crossW2]
    workerSettingsRows := []
    heartbeats := []
    jobs := [crossJob]
    assignments := [crossA1, crossA2]
    results := [crossR1, crossR2]
    accounts := []
    ledger := []
    poolSettings := some ⟨0, 0, 2, 985/1000, 1000⟩
    pricingRules := []
    nextAssignmentId := 3
    nextAccountId := 0 }

theorem cross_verification_spec_witness :
    (cross_disputed crossDb crossA2 crossR2 1 "h" 99).2 = .disputed ∧
    (cross_disputed crossDb crossA2 crossR2 1 "h" 99).1.assignments
      = crossDb.assignments
        ++ [⟨3, 1, none, .assigned, 99, none, "audit-third-" ++ "h"⟩] :=
  have h := cross_verification_spec crossDb crossA2 crossR2 "h" 99 crossA1 crossR1
    crossR2 2 1 crossW2 crossW1 rfl rfl rfl rfl (by decide) rfl rfl rfl rfl (by decide)
  ⟨h.2.2.2.1.1, h.2.2.2.1.2.2.2 (by decide)⟩

/-! ## C3: dispatcher eligibility, ranking, and tick-level safety -/

theorem candLt_irrefl (c : Candidate) : candLt c c = false := by
  simp [candLt]

theorem candLt_trans (a b c : Candidate) (h1 : candLt a b = true)
    (h2 : candLt b c = true) : candLt a c = true := by
  simp only [candLt, decide_eq_true_eq] at h1 h2 ⊢
  obtain h1 | ⟨e1, h1⟩ := h1 <;> obtain h2 | ⟨e2, h2⟩ := h2
  · exact Or.inl (h1.trans h2)
  · exact Or.inl (e2 ▸ h1)
  · exact Or.inl (e1 ▸ h2)
  · refine Or.inr ⟨e1.trans e2, ?_⟩
    obtain h1 | ⟨f1, h1⟩ := h1 <;> obtain h2 | ⟨f2, h2⟩ := h2
    · exact Or.inl (h1.trans h2)
    · exact Or.inl (f2 ▸ h1)
    · exact Or.inl (f1 ▸ h2)
    · refine Or.inr ⟨f1.trans f2, ?_⟩
      obtain h1 | ⟨g1, h1⟩ := h1 <;> obtain h2 | ⟨g2, h2⟩ := h2
      · exact Or.inl (h1.trans h2)
      · exact Or.inl (g2 ▸ h1)
      · exact Or.inl (g1 ▸ h2)
      · exact Or.inr ⟨g1.trans g2, h1.trans h2⟩

theorem candLt_total (a b : Candidate) :
    candLt a b = true ∨ candLt b a = true ∨
      (-a.reputation = -b.reputation ∧ a.latencyMs = b.latencyMs ∧
        a.load = b.load ∧ a.worker.id = b.worker.id) := by
  simp only [candLt, decide_eq_true_eq]
  rcases lt_trichotomy (-a.reputation) (-b.reputation) with h | h | h
  · exact Or.inl (Or.inl h)
  · rcases lt_trichotomy a.latencyMs b.latencyMs with g | g | g
    · exact Or.inl (Or.inr ⟨h, Or.inl g⟩)
    · rcases lt_trichotomy a.load b.load with k | k | k
      · exact Or.inl (Or.inr ⟨h, Or.inr ⟨g, Or.inl k⟩⟩)
      · rcases lt_trichotomy a.worker.id b.worker.id with m | m | m
        · exact Or.inl (Or.inr ⟨h, Or.inr ⟨g, Or.inr ⟨k, m⟩⟩⟩)
        · exact Or.inr (Or.inr ⟨h, g, k, m⟩)
        · exact Or.inr (Or.inl (Or.inr ⟨h.symm, Or.inr ⟨g.symm, Or.inr ⟨k.symm, m⟩⟩⟩))
      · exact Or.inr (Or.inl (Or.inr ⟨h.symm, Or.inr ⟨g.symm, Or.inl k⟩⟩))
    · exact Or.inr (Or.inl (Or.inr ⟨h.symm, Or.inl g⟩))
  · exact Or.inr (Or.inl (Or.inl h))

theorem candLt_congr_left (a b c : Candidate)
    (h1 : -a.reputation = -b.reputation) (h2 : a.latencyMs = b.latencyMs)
    (h3 : a.load = b.load) (h4 : a.worker.id = b.worker.id) :
    candLt a c = candLt b c := by
  simp only [candLt]
  rw [h1, h2, h3, h4]

theorem candLt_neg_trans (a b c : Candidate) (h1 : candLt a b = false)
    (h2 : candLt b c = false) : candLt a c = false := by
  by_contra hcon
  have hac : candLt a c = true := by
    cases hx : candLt a c with
    | true => rfl
    | false => exact absurd hx hcon
  rcases candLt_total a b with hab | hba | heq
  · rw [hab] at h1
    cases h1
  · have : candLt b c = true := candLt_trans b a c hba hac
    rw [this] at h2
    cases h2
  · rw [candLt_congr_left a b c heq.1 heq.2.1 heq.2.2.1 heq.2.2.2] at hac
    rw [hac] at h2
    cases h2

theorem firstMinBy_not_lt {α : Type} (x : α) (xs : List α) (lt : α → α → Bool)
    (htrans : ∀ a b c, lt a b = true → lt b c = true → lt a c = true)
    (hneg : ∀ a b c, lt a b = false → lt b c = false → lt a c = false)
    (hirr : ∀ a, lt a a = false) :
    ∀ y ∈ x :: xs, lt y (firstMinBy lt x xs) = false := by
  induction xs generalizing x with
  | nil =>
    intro y hy
    rw [List.mem_singleton.mp hy]
    exact hirr _
  | cons z zs ih =>
    rw [firstMinBy_cons]
    intro y hy
    by_cases hzx : lt z x = true
    · rw [if_pos hzx]
      rcases List.mem_cons.mp hy with hyx | hyr
      · subst hyx
        cases hxb : lt y (firstMinBy lt z zs) with
        | false => rfl
        | true =>
          have hzb : lt z (firstMinBy lt z zs) = false :=
            ih z z (List.mem_cons_self z zs)
          have : lt z (firstMinBy lt z zs) = true :=
            htrans z y (firstMinBy lt z zs) hzx hxb
          rw [this] at hzb
          cases hzb
      · exact ih z y hyr
    · have hzx' : lt z x = false := by
        cases hx : lt z x with
        | false => rfl
        | true => exact absurd hx hzx
      rw [if_neg hzx]
      rcases List.mem_cons.mp hy with hyx | hyr
      · rw [hyx]
        exact ih x x (List.mem_cons_self x zs)
      · rcases List.mem_cons.mp hyr with hyz | hyzs
        · subst hyz
          have hxb : lt x (firstMinBy lt x zs) = false :=
            ih x x (List.mem_cons_self x zs)
          exact hneg y x (firstMinBy lt x zs) hzx' hxb
        · exact ih x y (List.mem_cons_of_mem x hyzs)

theorem firstRowBy_not_lt {α : Type} {l : List α} {x : α} (lt : α → α → Bool)
    (htrans : ∀ a b c, lt a b = true → lt b c = true → lt a c = true)
    (hneg : ∀ a b c, lt a b = false → lt b c = false → lt a c = false)
    (hirr : ∀ a, lt a a = false)
    (h : firstRowBy lt l = some x) :
    ∀ y ∈ l, lt y x = false := by
  cases l with
  | nil => cases h
  | cons z zs =>
    simp only [firstRowBy, Option.some.injEq] at h
    subst h
    exact firstMinBy_not_lt z zs lt htrans hneg hirr

theorem firstRowBy_eq_none_iff {α : Type} (lt : α → α → Bool) (l : List α) :
    firstRowBy lt l = none ↔ l = [] := by
  cases l with
  | nil => simp [firstRowBy]
  | cons z zs => simp [firstRowBy]

/-- `mkCandidate` characterization: a worker yields a candidate exactly under the
eligibility conditions of the dispatcher loop. -/
theorem mkCandidate_iff (db : Db) (counts : ℕ → ℕ) (p : ℚ) (w : Worker)
    (c : Candidate) :
    mkCandidate db counts p w = some c ↔
      ∃ s, db.workerSettingsFor w.id = some s ∧ s.acceptNewAssignments = true ∧
        ((counts w.id : ℤ) < s.maxConcurrency) ∧
        worker_decimal_setting w "price_multiplier" DEFAULT_PRICE_MULTIPLIER ≤ p ∧
        c = ⟨worker_decimal_setting w "reputation" DEFAULT_REPUTATION,
          worker_latency_ms w, counts w.id, w⟩ := by
  constructor
  · intro h
    unfold mkCandidate at h
    cases hs : db.workerSettingsFor w.id with
    | none => rw [hs] at h; cases h
    | some s =>
      rw [hs] at h
      dsimp only at h
      cases hacc : s.acceptNewAssignments with
      | false => rw [hacc] at h; cases h
      | true =>
        rw [hacc] at h
        simp only [Bool.not_true, Bool.false_eq_true, if_false, ite_false] at h
        by_cases hcap : s.maxConcurrency ≤ (counts w.id : ℤ)
        · rw [if_pos hcap] at h
          cases h
        · rw [if_neg hcap] at h
          by_cases hpr : p < worker_decimal_setting w "price_multiplier"
              DEFAULT_PRICE_MULTIPLIER
          · rw [if_pos hpr] at h
            cases h
          · rw [if_neg hpr] at h
            exact ⟨s, rfl, hacc, not_le.mp hcap, not_lt.mp hpr,
              (Option.some.injEq _ _ ▸ h).symm⟩
  · rintro ⟨s, hs, hacc, hcap, hpr, hc⟩
    unfold mkCandidate
    rw [hs]
    dsimp only
    rw [hacc]
    simp only [Bool.not_true, Bool.false_eq_true, if_false, ite_false]
    rw [if_neg (not_le.mpr hcap), if_neg (not_lt.mpr hpr), hc]

theorem activeCount_append_single (l : List Assignment) (a : Assignment) (wid : ℕ) :
    activeCount (l ++ [a]) wid = activeCount l wid +
      (if (a.status = .assigned ∨ a.status = .started) ∧ a.workerId = some wid
        then 1 else 0) := by
  unfold activeCount
  rw [List.filter_append, List.length_append]
  congr 1
  by_cases h : (a.status = .assigned ∨ a.status = .started) ∧ a.workerId = some wid
  · rw [if_pos h]
    simp [h]
  · rw [if_neg h]
    simp [h]

theorem workerSettingsFor_congr (db1 db2 : Db)
    (h : db1.workerSettingsRows = db2.workerSettingsRows) (wid : ℕ) :
    db1.workerSettingsFor wid = db2.workerSettingsFor wid := by
  unfold Db.workerSettingsFor
  rw [h]

/-- `dispatchJobStep` skips the job when no worker is eligible. -/
theorem dispatchJobStep_none (ws : List Worker) (uuidHex : ℕ → String) (now : ℚ)
    (db : Db) (counts : ℕ → ℕ) (n : ℕ) (job : Job)
    (h : firstRowBy candLt (ws.filterMap
      (mkCandidate db counts (job_price_multiplier job))) = none) :
    dispatchJobStep ws uuidHex now (db, counts, n) job = (db, counts, n) := by
  unfold dispatchJobStep
  dsimp only
  rw [h]

/-- `dispatchJobStep` on a picked candidate: the new assignment row, the running
mark on the job, and the bumped in-memory count. -/
theorem dispatchJobStep_some (ws : List Worker) (uuidHex : ℕ → String) (now : ℚ)
    (db : Db) (counts : ℕ → ℕ) (n : ℕ) (job : Job) (c : Candidate)
    (h : firstRowBy candLt (ws.filterMap
      (mkCandidate db counts (job_price_multiplier job))) = some c) :
    dispatchJobStep ws uuidHex now (db, counts, n) job =
      (({ db with
          assignments := db.assignments ++
            [⟨db.nextAssignmentId, job.id, some c.worker.id, .assigned, now, none,
              "job-" ++ toString job.id ++ "-" ++ uuidHex n⟩],
          nextAssignmentId := db.nextAssignmentId + 1 } : Db).updateJob job.id
          (fun j => { j with status := .running }),
        fun wid => if wid = c.worker.id then counts wid + 1 else counts wid, n + 1) := by
  unfold dispatchJobStep
  dsimp only
  rw [h]

set_option maxHeartbeats 1000000 in
/-- The per-tick fold of the dispatcher: every assignment it appends is bound to an
online worker that had a settings row, accepted new assignments, and was strictly
below its `max_concurrency` counting the assignments created earlier in the same
tick. -/
theorem dispatch_fold_spec (db0 : Db) (ws : List Worker) (uuidHex : ℕ → String)
    (now : ℚ)
    (how : ∀ w ∈ ws, w ∈ db0.workers ∧ w.status = .online) :
    ∀ (jobs : List Job) (db : Db) (counts : ℕ → ℕ) (n : ℕ) (newAs : List Assignment),
    db.assignments = db0.assignments ++ newAs →
    db.workerSettingsRows = db0.workerSettingsRows →
    (∀ wid, counts wid = activeCount db.assignments wid) →
    ∃ newAs2 : List Assignment,
      (jobs.foldl (dispatchJobStep ws uuidHex now) (db, counts, n)).1.assignments
        = db0.assignments ++ newAs ++ newAs2 ∧
      (jobs.foldl (dispatchJobStep ws uuidHex now) (db, counts, n)).2.2
        = n + newAs2.length ∧
      ∀ i (hi : i < newAs2.length),
        ∃ w s, w ∈ db0.workers ∧ w.status = .online ∧
          (newAs2.get ⟨i, hi⟩).workerId = some w.id ∧
          (newAs2.get ⟨i, hi⟩).status = .assigned ∧
          db0.workerSettingsFor w.id = some s ∧
          s.acceptNewAssignments = true ∧
          ((activeCount (db0.assignments ++ newAs ++ newAs2.take i) w.id : ℤ)
            < s.maxConcurrency) := by
  intro jobs
  induction jobs with
  | nil =>
    intro db counts n newAs ha hs hc
    refine ⟨[], ?_, by simp, fun i hi => absurd hi (by simp)⟩
    simpa using ha
  | cons job jobs ih =>
    intro db counts n newAs ha hs hc
    rw [List.foldl_cons]
    cases hfr : firstRowBy candLt (ws.filterMap
        (mkCandidate db counts (job_price_multiplier job))) with
    | none =>
      rw [dispatchJobStep_none ws uuidHex now db counts n job hfr]
      exact ih db counts n newAs ha hs hc
    | some c =>
      have hcmem : c ∈ ws.filterMap (mkCandidate db counts (job_price_multiplier job)) :=
        firstRowBy_mem candLt hfr
      obtain ⟨w, hwmem, hmk⟩ := List.mem_filterMap.mp hcmem
      obtain ⟨s, hsett, haccept, hcap, hpr, hcval⟩ :=
        (mkCandidate_iff db counts (job_price_multiplier job) w c).mp hmk
      have hcw : c.worker = w := by rw [hcval]
      set A : Assignment :=
        ⟨db.nextAssignmentId, job.id, some c.worker.id, .assigned, now, none,
          "job-" ++ toString job.id ++ "-" ++ uuidHex n⟩ with hA0
      set acc2 := dispatchJobStep ws uuidHex now (db, counts, n) job with hacc2
      have hstep := dispatchJobStep_some ws uuidHex now db counts n job c hfr
      have ha' : acc2.1.assignments = db0.assignments ++ (newAs ++ [A]) := by
        rw [hacc2, hstep]
        show db.assignments ++ [A] = _
        rw [ha, List.append_assoc]
      have hs' : acc2.1.workerSettingsRows = db0.workerSettingsRows := by
        rw [hacc2, hstep]
        exact hs
      have hc' : ∀ wid, acc2.2.1 wid = activeCount acc2.1.assignments wid := by
        intro wid
        rw [hacc2, hstep]
        show (if wid = c.worker.id then counts wid + 1 else counts wid)
          = activeCount (db.assignments ++ [A]) wid
        by_cases h : wid = c.worker.id
        · rw [if_pos h, activeCount_append_single,
            if_pos ⟨Or.inl rfl, by rw [h]⟩, hc wid]
        · rw [if_neg h, activeCount_append_single,
            if_neg (fun hcond => h (Option.some.inj hcond.2).symm), hc wid]
          exact (Nat.add_zero _).symm
      have hn' : acc2.2.2 = n + 1 := by
        rw [hacc2, hstep]
      obtain ⟨newAs2, hAs, hN, hQ⟩ := ih acc2.1 acc2.2.1 acc2.2.2 (newAs ++ [A])
        ha' hs' hc'
      have hpe : (acc2.1, acc2.2.1, acc2.2.2) = acc2 := rfl
      rw [hpe] at hAs hN
      refine ⟨A :: newAs2, ?_, ?_, ?_⟩
      · rw [hAs]
        simp [List.append_assoc]
      · rw [hN, hn', List.length_cons]
        omega
      · intro i hi
        cases i with
        | zero =>
          refine ⟨w, s, (how w hwmem).1, (how w hwmem).2, ?_, rfl, ?_, haccept, ?_⟩
          · show some c.worker.id = some w.id
            rw [hcw]
          · rw [← workerSettingsFor_congr db db0 hs w.id]
            exact hsett
          · simp only [List.take_zero, List.append_nil, ← ha]
            have hcap2 := hcap
            rw [hc w.id] at hcap2
            exact hcap2
        | succ j =>
          have hj : j < newAs2.length := by simpa using hi
          obtain ⟨w', s', h1, h2, h3, h4, h5, h6, h7⟩ := hQ j hj
          refine ⟨w', s', h1, h2, h3, h4, h5, h6, ?_⟩
          have e : db0.assignments ++ newAs ++ (A :: newAs2).take (j + 1)
              = db0.assignments ++ (newAs ++ [A]) ++ newAs2.take j := by
            simp [List.append_assoc, List.take_succ_cons]
          rw [e]
          exact h7

set_option maxHeartbeats 1000000 in
/-- C3: per claimed job, an assignment is created exactly when the candidate set —
built from the ONLINE workers — is non-empty; eligibility is settings present,
`accept_new_assignments`, same-tick-aware load strictly below `max_concurrency`,
and worker price multiplier ≤ job price multiplier (defaults 1.0); the chosen
worker is the candidate minimal for the key
`(-reputation, latency_ms, active_load, worker_id)` (defaults 0.5 / 1 000 000);
and over a whole tick every created assignment references an online (hence
non-banned) worker that was strictly below its `max_concurrency` counting the
assignments created earlier in the same tick. -/
theorem dispatcher_spec :
    (∀ (db : Db) (counts : ℕ → ℕ) (n : ℕ) (now : ℚ) (uuidHex : ℕ → String)
        (ws : List Worker) (job : Job),
      (ws.filterMap (mkCandidate db counts (job_price_multiplier job)) = [] →
        dispatchJobStep ws uuidHex now (db, counts, n) job = (db, counts, n)) ∧
      (∀ c, firstRowBy candLt (ws.filterMap
          (mkCandidate db counts (job_price_multiplier job))) = some c →
        (dispatchJobStep ws uuidHex now (db, counts, n) job).1.assignments
          = db.assignments ++
            [⟨db.nextAssignmentId, job.id, some c.worker.id, .assigned, now, none,
              "job-" ++ toString job.id ++ "-" ++ uuidHex n⟩] ∧
        c ∈ ws.filterMap (mkCandidate db counts (job_price_multiplier job)) ∧
        ∀ c' ∈ ws.filterMap (mkCandidate db counts (job_price_multiplier job)),
          candLt c' c = false) ∧
      (ws.filterMap (mkCandidate db counts (job_price_multiplier job)) ≠ [] →
        ∃ c, firstRowBy candLt (ws.filterMap
          (mkCandidate db counts (job_price_multiplier job))) = some c)) ∧
    (∀ (db : Db) (counts : ℕ → ℕ) (p : ℚ) (w : Worker) (c : Candidate),
      mkCandidate db counts p w = some c ↔
        ∃ s, db.workerSettingsFor w.id = some s ∧ s.acceptNewAssignments = true ∧
          ((counts w.id : ℤ) < s.maxConcurrency) ∧
          worker_decimal_setting w "price_multiplier" DEFAULT_PRICE_MULTIPLIER ≤ p ∧
          c = ⟨worker_decimal_setting w "reputation" DEFAULT_REPUTATION,
            worker_latency_ms w, counts w.id, w⟩) ∧
    (∀ (db : Db) (limit : ℕ) (uuidHex : ℕ → String) (now : ℚ),
      ∃ newAs : List Assignment,
        (assign_queued_jobs db limit uuidHex now).1.assignments
          = db.assignments ++ newAs ∧
        (assign_queued_jobs db limit uuidHex now).2 = newAs.length ∧
        ∀ i (hi : i < newAs.length),
          ∃ w s, w ∈ db.workers ∧ w.status = .online ∧
            (newAs.get ⟨i, hi⟩).workerId = some w.id ∧
            (newAs.get ⟨i, hi⟩).status = .assigned ∧
            db.workerSettingsFor w.id = some s ∧
            s.acceptNewAssignments = true ∧
            ((activeCount (db.assignments ++ newAs.take i) w.id : ℤ)
              < s.maxConcurrency)) := by
  refine ⟨?_, fun db counts p w c => mkCandidate_iff db counts p w c, ?_⟩
  · intro db counts n now uuidHex ws job
    refine ⟨?_, ?_, ?_⟩
    · intro hempty
      exact dispatchJobStep_none ws uuidHex now db counts n job
        (by rw [hempty]; rfl)
    · intro c hfr
      refine ⟨?_, firstRowBy_mem candLt hfr,
        firstRowBy_not_lt candLt candLt_trans candLt_neg_trans candLt_irrefl hfr⟩
      rw [dispatchJobStep_some ws uuidHex now db counts n job c hfr]
      rfl
    · intro hne
      cases hl : ws.filterMap (mkCandidate db counts (job_price_multiplier job)) with
      | nil => exact absurd hl hne
      | cons z zs => exact ⟨firstMinBy candLt z zs, by rw [firstRowBy]⟩
  · intro db limit uuidHex now
    unfold assign_queued_jobs
    dsimp only
    by_cases hq : ((sortByLt jobOrderLt
        (db.jobs.filter (fun j => decide (j.status = .queued)))).take limit).isEmpty
    · rw [if_pos hq]
      exact ⟨[], by simp, by simp, fun i hi => absurd hi (by simp)⟩
    · rw [if_neg hq]
      by_cases hw : (db.workers.filter (fun w => decide (w.status = .online))).isEmpty
      · rw [if_pos hw]
        exact ⟨[], by simp, by simp, fun i hi => absurd hi (by simp)⟩
      · rw [if_neg hw]
        obtain ⟨newAs2, h1, h2, h3⟩ := dispatch_fold_spec db
          (db.workers.filter (fun w => decide (w.status = .online))) uuidHex now
          (fun w hwmem => ⟨(List.mem_filter.mp hwmem).1,
            by simpa using (List.mem_filter.mp hwmem).2⟩)
          ((sortByLt jobOrderLt
            (db.jobs.filter (fun j => decide (j.status = .queued)))).take limit)
          db (activeCount db.assignments) 0 [] (by simp) rfl (fun wid => rfl)
        refine ⟨newAs2, by simpa using h1, by simpa using h2, ?_⟩
        intro i hi
        obtain ⟨w, s, g1, g2, g3, g4, g5, g6, g7⟩ := h3 i hi
        exact ⟨w, s, g1, g2, g3, g4, g5, g6, by simpa using g7⟩

/-- A queued job for the dispatcher scenario. -/
def dispJob : Job := ⟨1, some 3, .inference, .queued, .jobj [], 5, none⟩

/-- An online worker with a settings row (max concurrency 4). -/
def dispW2 : Worker := ⟨2, 2, .online, some [], none, none⟩

/-- The dispatcher scenario state. -/
def dispDb : Db :=
  { workers := [dispW2]
    workerSettingsRows := [⟨2, 4, 60, true⟩]
    heartbeats := []
    jobs := [dispJob]
    assignments := []
    results := []
    accounts := []
    ledger := []
    poolSettings := none
    pricingRules := []
    nextAssignmentId := 1
    nextAccountId := 0 }

theorem dispatcher_spec_witness :
    dispatchJobStep [⟨9, 2, .online, none, none, none⟩] (fun _ => "u") 50
      (dispDb, (fun _ => 0), 0) dispJob = (dispDb, (fun _ => 0), 0) ∧
    mkCandidate dispDb (fun _ => 0) 1 dispW2
      = some ⟨1/2, 1000000, 0, dispW2⟩ := by
  have h := dispatcher_spec
  constructor
  · exact (h.1 dispDb (fun _ => 0) 0 50 (fun _ => "u")
      [⟨9, 2, .online, none, none, none⟩] dispJob).1 rfl
  · exact (h.2.1 dispDb (fun _ => 0) 1 dispW2 ⟨1/2, 1000000, 0, dispW2⟩).mpr
      ⟨⟨2, 4, 60, true⟩, rfl, rfl, by decide, le_refl 1, rfl⟩
